import Mathlib

/-!
# Verification of the invoice-merge document assembly engine

This file gives a shallow embedding, in Lean 4, of the core of
`src/src-tauri/src/main.rs` (an invoice merging tool built on `lopdf`,
`image`, `libheif-rs` and `printpdf`), and proves or refutes the frozen
claims about it.

Modelling conventions:
* Rust `f64`/`f32` arithmetic on page geometry and alpha blending is
  embedded as exact rational arithmetic (`ℚ`).  All concrete inputs used
  in counterexamples were checked to avoid IEEE-special behaviour
  (infinities) so that the rational model agrees with the float code there.
* `lopdf::ObjectId` (a `(u32, u16)` pair, generation always 0 here) is
  embedded as `Nat`.
* `lopdf::Object` is embedded by the fragment the merge logic inspects:
  dictionaries (ordered key/value lists, as in lopdf's `Dictionary`, whose
  `set` replaces in place and otherwise appends) and a catch-all
  constructor for non-dictionary objects, on which `as_dict` fails and
  `type_name` yields no name.
* `BTreeMap<ObjectId, Object>` is embedded as a key-sorted association
  list; `btreeInsert` is ordered insert-or-replace, and iteration order is
  list order (= ascending key order), exactly as `BTreeMap::iter`.
* Filesystem and decoder effects (`exists`, `canonicalize`,
  `convert_image_to_pdf` succeeding, `Document::load`) are abstracted into
  an explicit environment record `Env`; paths are component lists and
  `Path::starts_with` is list prefix.
* The final dense renumbering (`document.renumber_objects()`) and
  serialisation at the very end of `merge_pdf_files` are outside every
  claim's cited line ranges; the merged document is therefore modelled at
  the point just after the trailer root is set (line 522 of the source).
-/

namespace InvoiceMerge

/-- PDF object values, as far as the merge logic inspects them:
references, names, integers, strings and arrays
(mirrors the fragment of `lopdf::Object` used in `main.rs`). -/
inductive Val : Type where
  | ref (id : Nat)
  | name (s : String)
  | int (n : Int)
  | str (s : String)
  | array (xs : List Val)

/-- An ordered PDF dictionary: a list of key/value pairs in insertion
order, as in lopdf's `Dictionary` (backed by a linked hash map). -/
abbrev Dict := List (String × Val)

/-- lopdf `Dictionary::get`: first entry with the given key. -/
def dictGet (k : String) (d : Dict) : Option Val :=
  match d with
  | [] => none
  | (k', v) :: rest => if k' = k then some v else dictGet k rest

/-- lopdf `Dictionary::set`: replace the value in place if the key is
present, otherwise append the new entry. -/
def dictSet (k : String) (v : Val) (d : Dict) : Dict :=
  match d with
  | [] => [(k, v)]
  | (k', v') :: rest => if k' = k then (k, v) :: rest else (k', v') :: dictSet k v rest

/-- lopdf `Dictionary::remove`. -/
def dictRemove (k : String) (d : Dict) : Dict :=
  match d with
  | [] => []
  | (k', v') :: rest => if k' = k then rest else (k', v') :: dictRemove k rest

/-- lopdf `Dictionary::extend(other)`: every entry of `other` whose key is
absent from `self` is inserted; on a key collision the entry of `other`
(the previously retained dictionary, in `merge_pdf_files`) replaces the
value kept so far.  (lopdf combines colliding values; the claims below
only depend on collision-free keys, where all lopdf versions insert.) -/
def dictExtend (d other : Dict) : Dict :=
  other.foldl (fun acc kv => dictSet kv.1 kv.2 acc) d

/-- A PDF object: a dictionary, or any non-dictionary object
(stream/array/primitive), on which `as_dict` fails. -/
inductive Obj : Type where
  | dict (d : Dict)
  | nondict

/-- `Object::as_dict()` (Ok only on dictionaries). -/
def Obj.asDict : Obj → Option Dict
  | .dict d => some d
  | .nondict => none

/-- `object.type_name().unwrap_or("")`: the name stored under the
dictionary's `Type` key, or the empty string when the object is not a
dictionary, has no `Type` entry, or its `Type` entry is not a name. -/
def typeName (o : Obj) : String :=
  match o with
  | .dict d =>
    match dictGet "Type" d with
    | some (.name s) => s
    | _ => ""
  | .nondict => ""

/-- The error taxonomy of `MergeError` in `main.rs`. -/
inductive MergeError : Type where
  | NoFiles
  | InvalidFolder
  | Io (msg : String)
  | Image (msg : String)
  | Pdf (msg : String)
  deriving DecidableEq, Repr

/-! ## Page Synthesizer geometry (`convert_image_to_pdf`, lines 279-304)

`f64` arithmetic is embedded as `ℚ`.  `IMAGE_RENDER_DPI = 150.0`. -/

/-- Lines 280-286: `aspect = img_w / img_h`; `display_w = 210`,
`display_h = display_w / aspect`; if `display_h > 297` then
`display_h = 297`, `display_w = display_h * aspect`.
Returns `(display_w, display_h)` in millimetres. -/
def displaySize (w h : ℕ) : ℚ × ℚ :=
  let aspect : ℚ := (w : ℚ) / (h : ℚ)
  let dw : ℚ := 210
  let dh : ℚ := dw / aspect
  if dh > 297 then (297 * aspect, 297) else (dw, dh)

/-- Line 288: `offset_x = (210.0 - display_w) / 2.0`. -/
def offsetX (w h : ℕ) : ℚ := (210 - (displaySize w h).1) / 2

/-- Line 289: `offset_y = (297.0 - display_h) / 2.0`. -/
def offsetY (w h : ℕ) : ℚ := (297 - (displaySize w h).2) / 2

/-- Line 291: `base_width_pt = (img_w.max(1) as f64 / IMAGE_RENDER_DPI) * 72.0`. -/
def baseWidthPt (w : ℕ) : ℚ := ((max w 1 : ℕ) : ℚ) / 150 * 72

/-- Line 292: `base_height_pt = (img_h.max(1) as f64 / IMAGE_RENDER_DPI) * 72.0`. -/
def baseHeightPt (h : ℕ) : ℚ := ((max h 1 : ℕ) : ℚ) / 150 * 72

/-- Line 293: `target_width_pt = (display_w / 25.4) * 72.0`. -/
def targetWidthPt (w h : ℕ) : ℚ := (displaySize w h).1 / (254 / 10) * 72

/-- Line 294: `target_height_pt = (display_h / 25.4) * 72.0`. -/
def targetHeightPt (w h : ℕ) : ℚ := (displaySize w h).2 / (254 / 10) * 72

/-- Lines 295-299: `scale_x = if base_width_pt == 0.0 { 1.0 } else
{ target_width_pt / base_width_pt }`. -/
def scaleX (w h : ℕ) : ℚ :=
  if baseWidthPt w = 0 then 1 else targetWidthPt w h / baseWidthPt w

/-- Lines 300-304: `scale_y`, analogously for the vertical axis. -/
def scaleY (w h : ℕ) : ℚ :=
  if baseHeightPt h = 0 then 1 else targetHeightPt w h / baseHeightPt h

/-! ## Alpha flattening (`flatten_rgba` / `blend_channel`, lines 346-374) -/

/-- Lines 371-374, `blend_channel(channel, alpha)`:
`value = channel * alpha + 255 * (1 - alpha)`, then
`value.round().clamp(0.0, 255.0) as u8`.  `f32` is embedded as `ℚ`;
`round` is round-half-away-from-zero, which on the non-negative values
arising here coincides with Lean's `round` (half up). -/
def blend_channel (channel : ℕ) (alpha : ℚ) : ℕ :=
  let value : ℚ := (channel : ℚ) * alpha + 255 * (1 - alpha)
  (min 255 (max 0 (round value))).toNat

/-- Lines 357-369, `flatten_rgba`: composite every RGBA pixel onto opaque
white with `alpha = a / 255`, producing RGB pixels (the output type has no
alpha channel, mirroring the `RgbImage` return type). -/
def flatten_rgba (pixels : List (ℕ × ℕ × ℕ × ℕ)) : List (ℕ × ℕ × ℕ) :=
  pixels.map (fun p =>
    let alpha : ℚ := (p.2.2.2 : ℚ) / 255
    (blend_channel p.1 alpha, blend_channel p.2.1 alpha, blend_channel p.2.2.1 alpha))

/-! ## Planar (HEIC) decode repacking (`decode_heic`, lines 394-410) -/

/-- The interleaved plane handed back by libheif: logical pixel
dimensions, byte stride of each row, bits per pixel, and the raw bytes. -/
structure HeifPlane : Type where
  width : ℕ
  height : ℕ
  stride : ℕ
  bitsPerPixel : ℕ
  data : List ℕ
  deriving Repr

/-- Line 397: `channels = ((bits_per_pixel.max(24) / 8) as usize).min(4).max(3)`. -/
def planeChannels (p : HeifPlane) : ℕ := max (min (max p.bitsPerPixel 24 / 8) 4) 3

/-- Lines 398-410 of `decode_heic`: reject a stride smaller than
`width * channels`, otherwise repack row by row, each destination row
taking exactly the first `width * channels` bytes of the corresponding
strided source row. -/
def repackPlane (p : HeifPlane) : Except MergeError (List ℕ) :=
  let channels := planeChannels p
  let row_bytes := p.width * channels
  if p.stride < row_bytes then
    .error (.Image "HEIC stride smaller than row width")
  else
    .ok ((List.range p.height).flatMap (fun row =>
      (p.data.drop (row * p.stride)).take row_bytes))

/-! ## Output name resolution (`merge_invoices`, lines 204-218) -/

/-- Lower-case a single ASCII letter, leave everything else unchanged. -/
def charLower (c : Char) : Char :=
  if 'A' ≤ c ∧ c ≤ 'Z' then Char.ofNat (c.toNat + 32) else c

/-- Rust `str::to_ascii_lowercase`: lower-case ASCII letters only. -/
def asciiLowercase (s : String) : String :=
  .mk (s.data.map charLower)

/-- Rust `str::trim`: strip leading and trailing whitespace (the
whitespace set is approximated by `Char.isWhitespace`; the names the
claims touch only involve ASCII whitespace, where the two agree). -/
def strTrim (s : String) : String :=
  .mk (((s.data.dropWhile Char.isWhitespace).reverse.dropWhile
    Char.isWhitespace).reverse)

/-- Rust `str::ends_with`. -/
def strEndsWith (s suffix : String) : Bool :=
  suffix.data.isSuffixOf s.data

/-- Lines 204-218: trim-and-test for emptiness, keep the caller's name
verbatim when its ASCII-lowercase form already ends in `.pdf`, append
`.pdf` otherwise, and fall back to a timestamped default name when the
caller supplied none (`ts` stands for `now.format("%Y%m%d_%H%M")`). -/
def resolveOutputName (outputFileName : Option String) (ts : String) : String :=
  match outputFileName with
  | none => "merged_invoices_" ++ ts ++ ".pdf"
  | some nm =>
    if strTrim nm = "" then "merged_invoices_" ++ ts ++ ".pdf"
    else if strEndsWith (asciiLowercase nm) ".pdf" then nm
    else nm ++ ".pdf"

/-! ## Object-Graph Merger (`merge_pdf_files`, lines 423-531) -/

/-- A loaded PDF document: its object table (a `BTreeMap<ObjectId, Object>`,
embedded as a key-sorted association list in ascending-key iteration
order) and its `max_id` field. -/
structure PdfDoc : Type where
  objects : List (Nat × Obj)
  maxId : Nat

/-- `BTreeMap::insert` on the sorted-association-list embedding: ordered
insert, replacing the entry when the key is already present. -/
def btreeInsert (k : Nat) (v : Obj) : List (Nat × Obj) → List (Nat × Obj)
  | [] => [(k, v)]
  | (k', v') :: rest =>
    if k < k' then (k, v) :: (k', v') :: rest
    else if k = k' then (k, v) :: rest
    else (k', v') :: btreeInsert k v rest

/-- The renumbering map of `Document::renumber_objects_with(start)`: the
object id found at position `j` of the table's (ascending) id list is
mapped to `start + j`; ids not in the table are left unchanged. -/
def renumAt (start : Nat) : List Nat → Nat → Nat → Nat
  | [], _, i => i
  | k :: rest, j, i => if i = k then start + j else renumAt start rest (j + 1) i

mutual

/-- Apply an object-id substitution to every reference inside a value
(as lopdf's renumbering does). -/
def mapValRefs (f : Nat → Nat) : Val → Val
  | .ref i => .ref (f i)
  | .name s => .name s
  | .int n => .int n
  | .str s => .str s
  | .array xs => .array (mapValList f xs)

/-- `mapValRefs` mapped over a list of values. -/
def mapValList (f : Nat → Nat) : List Val → List Val
  | [] => []
  | v :: vs => mapValRefs f v :: mapValList f vs

end

/-- Apply an object-id substitution to every reference inside an object. -/
def mapObjRefs (f : Nat → Nat) : Obj → Obj
  | .dict d => .dict (d.map (fun kv => (kv.1, mapValRefs f kv.2)))
  | .nondict => .nondict

/-- The id substitution performed by `doc.renumber_objects_with(start)`. -/
def renumFun (start : Nat) (doc : PdfDoc) : Nat → Nat :=
  renumAt start (doc.objects.map Prod.fst) 0

/-- `Document::renumber_objects_with(start)` (line 439): renumber the
table's ids sequentially from `start` in ascending id order, rewrite every
reference accordingly, and set `max_id` to the last id handed out
(`start + n - 1`). -/
def renumberWith (start : Nat) (doc : PdfDoc) : PdfDoc :=
  { objects := doc.objects.map (fun e =>
      (renumFun start doc e.1, mapObjRefs (renumFun start doc) e.2)),
    maxId := start + doc.objects.length - 1 }

/-- The loop state of the first phase of `merge_pdf_files`:
`documents_pages`, `documents_objects`, and the id watermark `max_id`. -/
structure CollectState : Type where
  pages : List (Nat × Obj)
  objects : List (Nat × Obj)
  maxId : Nat

/-- Lines 442-451, one entry of the per-document object loop: a `Page`
object is pushed onto `documents_pages`, anything else is inserted into
`documents_objects`. -/
def collectEntry (st : List (Nat × Obj) × List (Nat × Obj)) (e : Nat × Obj) :
    List (Nat × Obj) × List (Nat × Obj) :=
  if typeName e.2 = "Page" then (st.1 ++ [e], st.2)
  else (st.1, btreeInsert e.1 e.2 st.2)

/-- Lines 434-452, the body of the per-document loop: renumber the source
from the current watermark, advance the watermark to `doc.max_id + 1`, and
route every object.  (The best-effort empty-password `decrypt` of lines
436-438 only rewrites stream/string bytes and is ignored by this
object-level embedding.) -/
def collectStep (st : CollectState) (doc : PdfDoc) : CollectState :=
  let d := renumberWith st.maxId doc
  let ps := d.objects.foldl collectEntry (st.pages, st.objects)
  { pages := ps.1, objects := ps.2, maxId := d.maxId + 1 }

/-- Lines 433-453: load and process each source in order; a failing
`Document::load` aborts with a `Pdf` error. -/
def collectDocs (load : List String → Option PdfDoc) :
    List (List String) → CollectState → Except MergeError CollectState
  | [], st => .ok st
  | p :: rest, st =>
    match load p with
    | none => .error (.Pdf "failed to load document")
    | some doc => collectDocs load rest (collectStep st doc)

/-- The state of the second phase (lines 459-486): the fresh output
document's object table, plus the `catalog_object` and `pages_object`
candidates. -/
structure RouteState : Type where
  objects : List (Nat × Obj)
  catalogObject : Option (Nat × Obj)
  pagesObject : Option (Nat × Obj)

/-- Lines 463-486, one entry of the role-routing loop over
`documents_objects`: the first `Catalog` is kept; each `Pages` dictionary
replaces the current `pages_object` candidate after extending it with the
previously retained dictionary's entries; `Outlines`/`Outline` objects are
discarded; everything else is inserted into the output's object table. -/
def routeEntry (st : RouteState) (e : Nat × Obj) : RouteState :=
  let t := typeName e.2
  if t = "Catalog" then
    if st.catalogObject.isNone then { st with catalogObject := some e } else st
  else if t = "Pages" then
    match e.2.asDict with
    | some d =>
      let d' :=
        match st.pagesObject with
        | some q =>
          match q.2.asDict with
          | some oldD => dictExtend d oldD
          | none => d
        | none => d
      { st with pagesObject := some (e.1, .dict d') }
    | none => st
  else if t = "Outlines" ∨ t = "Outline" then st
  else { st with objects := btreeInsert e.1 e.2 st.objects }

/-- The merged output document, modelled at the point just after the
trailer root is set (line 522), before the final dense renumbering and
serialisation (which no claim covers). -/
structure MergedDoc : Type where
  objects : List (Nat × Obj)
  trailerRoot : Nat
  pageId : Nat
  catalogId : Nat

/-- Lines 488-522: require a canonical Pages-root and Catalog, rewrite
every collected page's `Parent` to the canonical Pages-root id, write the
canonical Pages-root's `Count` and `Kids`, point the canonical Catalog at
the Pages-root and strip its `Outlines` entry, and set the trailer root. -/
def assembleDoc (pages : List (Nat × Obj)) (rt : RouteState) :
    Except MergeError MergedDoc :=
  match rt.pagesObject with
  | none => .error (.Pdf "Pages root not found")
  | some pq =>
    match rt.catalogObject with
    | none => .error (.Pdf "Catalog root not found")
    | some cq =>
      let pageId := pq.1
      let objs1 := pages.foldl (fun acc e =>
        match e.2.asDict with
        | some d => btreeInsert e.1 (.dict (dictSet "Parent" (.ref pageId) d)) acc
        | none => acc) rt.objects
      let objs2 :=
        match pq.2.asDict with
        | some d =>
          btreeInsert pageId
            (.dict (dictSet "Kids" (.array (pages.map (fun e => Val.ref e.1)))
              (dictSet "Count" (.int pages.length) d))) objs1
        | none => objs1
      let objs3 :=
        match cq.2.asDict with
        | some d =>
          btreeInsert cq.1
            (.dict (dictRemove "Outlines" (dictSet "Pages" (.ref pageId) d))) objs2
        | none => objs2
      .ok { objects := objs3, trailerRoot := cq.1, pageId := pageId, catalogId := cq.1 }

/-- The initial `RouteState`: a fresh `Document::with_version("1.5")` has
an empty object table, and no Catalog or Pages-root candidate yet. -/
def initRoute : RouteState :=
  { objects := [], catalogObject := none, pagesObject := none }

/-- The initial state of the collection loop: no pages, no objects, and
`max_id = 1` (line 430). -/
def initCollect : CollectState :=
  { pages := [], objects := [], maxId := 1 }

/-- `merge_pdf_files` (lines 423-531), up to the final dense renumbering:
reject an empty input list, collect pages and objects over all sources,
reject a run that collected no pages, route roles, and assemble. -/
def mergePdfFiles (load : List String → Option PdfDoc)
    (files : List (List String)) : Except MergeError MergedDoc :=
  if files.isEmpty then .error .NoFiles
  else
    match collectDocs load files initCollect with
    | .error e => .error e
    | .ok st =>
      if st.pages.isEmpty then .error .NoFiles
      else assembleDoc st.pages (st.objects.foldl routeEntry initRoute)

/-- The pages collected by the first phase over an already-loaded list of
source documents. -/
def collectedPages (docs : List PdfDoc) : List (Nat × Obj) :=
  (docs.foldl collectStep initCollect).pages

/-! ## Merge Orchestrator (`merge_invoices`, lines 135-236) -/

/-- `InvoiceFile` from `main.rs`. -/
structure InvoiceFile : Type where
  path : String
  file_name : String
  ext : String
  modified_ts : Int
  size : Nat

/-- `SortMode` from `main.rs`. -/
inductive SortMode : Type where
  | FileNameAsc
  | ModifiedAsc
  | Custom
  deriving DecidableEq, Repr

/-- `MergeRequest` from `main.rs`. -/
structure MergeRequest : Type where
  folder_path : String
  files : List InvoiceFile
  sort_mode : SortMode
  output_file_name : Option String

/-- `MergeResult` from `main.rs` (the output path is kept as path
components). -/
structure MergeResult : Type where
  success : Bool
  output_path : List String
  failed_files : List String
  message : Option String

/-- The filesystem/decoder environment the orchestrator runs against.
Paths produced by `canonicalize` are component lists;
`Path::starts_with` is component-list prefix. -/
structure Env : Type where
  folderOk : Bool
  folderCanon : Option (List String)
  fileExists : String → Bool
  canonicalize : String → Option (List String)
  convert : List String → Option (List String)
  load : List String → Option PdfDoc

/-- `IMAGE_EXTENSIONS` from `main.rs` (line 20). -/
def IMAGE_EXTENSIONS : List String :=
  ["jpg", "jpeg", "png", "bmp", "gif", "tiff", "webp", "heic"]

/-- Lines 142-148: apply the sort policy once, before processing.
`sort_by` in Rust is a stable merge sort, as is `List.mergeSort`. -/
def sortFiles (mode : SortMode) (files : List InvoiceFile) : List InvoiceFile :=
  match mode with
  | .FileNameAsc =>
    files.mergeSort (fun a b => a.file_name.toLower ≤ b.file_name.toLower)
  | .ModifiedAsc => files.mergeSort (fun a b => a.modified_ts ≤ b.modified_ts)
  | .Custom => files

/-- What the per-file loop does with one entry: produce a document source
(a path pushed onto `pdf_inputs`) or record a per-file failure. -/
inductive FileStep : Type where
  | source (p : List String)
  | failed

/-- Lines 161-196, the per-file body: reject a missing path, a failing
`canonicalize`, or a canonical path outside the canonicalized source
folder; pass a `pdf` through; convert a recognized image extension
(failure of the conversion is a per-file failure); reject any other
extension. -/
def classifyFile (env : Env) (folderReal : List String) (f : InvoiceFile) :
    FileStep :=
  if env.fileExists f.path = false then .failed
  else
    match env.canonicalize f.path with
    | none => .failed
    | some canon =>
      if ¬ folderReal.isPrefixOf canon then .failed
      else
        let ext := asciiLowercase f.ext
        if ext = "pdf" then .source canon
        else if ext ∈ IMAGE_EXTENSIONS then
          match env.convert canon with
          | some p => .source p
          | none => .failed
        else .failed

/-- Lines 159-198, the whole per-file loop: accumulate `pdf_inputs` and
the failed display names, both in processing order. -/
def processFiles (env : Env) (folderReal : List String) :
    List InvoiceFile → List (List String) × List String
  | [] => ([], [])
  | f :: rest =>
    let tail := processFiles env folderReal rest
    match classifyFile env folderReal f with
    | .source p => (p :: tail.1, tail.2)
    | .failed => (tail.1, f.file_name :: tail.2)

/-- `merge_invoices` (lines 135-236): validate and canonicalize the
folder, sort, process every file, fail with `NoFiles` on an empty list or
when no document source was produced, resolve the output name, run the
merger, and build the `MergeResult`.  (`ts` stands for the formatted
current time; progress events and the on-disk save are effects outside
this embedding.) -/
def mergeInvoices (env : Env) (req : MergeRequest) (ts : String) :
    Except MergeError MergeResult :=
  if env.folderOk = false then .error .InvalidFolder
  else
    match env.folderCanon with
    | none => .error (.Io "canonicalize failed")
    | some folderReal =>
      let files := sortFiles req.sort_mode req.files
      let total := files.length
      if total = 0 then .error .NoFiles
      else
        let pr := processFiles env folderReal files
        if pr.1.isEmpty then .error .NoFiles
        else
          let outputName := resolveOutputName req.output_file_name ts
          match mergePdfFiles env.load pr.1 with
          | .error e => .error e
          | .ok _ =>
            .ok { success := pr.2.length < total,
                  output_path := folderReal ++ [outputName],
                  failed_files := pr.2,
                  message := if pr.2.isEmpty then none
                             else some (toString pr.2.length ++ " 个文件处理失败") }

/-! ## Derived notions used by the statements about the merger -/

/-- Boolean role test on a table entry (the merge logic's
`match object.type_name() { ... }` arms). -/
def isRole (r : String) (e : Nat × Obj) : Bool := typeName e.2 == r

/-- The pages the collection loop gathers, written source by source: the
source processed at watermark `m` is renumbered from `m`, its `Page`
objects are appended in table order, and the next source is processed at
watermark `max_id + 1`. -/
def pagesFlat (m : Nat) : List PdfDoc → List (Nat × Obj)
  | [] => []
  | d :: rest =>
    (renumberWith m d).objects.filter (isRole "Page")
      ++ pagesFlat ((renumberWith m d).maxId + 1) rest

/-- The per-page update of lines 492-499: rewrite the page dictionary's
`Parent` to the canonical Pages-root id (a non-dictionary object is left
untouched, mirroring the `if let` skip). -/
def setParent (pid : Nat) : Obj → Obj
  | .dict d => .dict (dictSet "Parent" (.ref pid) d)
  | .nondict => .nondict

/-- `big` carries every key `small` carries. -/
def dictSupersetOf (big small : Dict) : Prop :=
  ∀ k : String, (dictGet k small).isSome = true → (dictGet k big).isSome = true

/-- What the routing loop maintains about its canonical Pages-root
candidate: it is a duplicate-free dictionary whose `Type` is `Pages`. -/
def PagesCanonWF (st : RouteState) : Prop :=
  ∀ q, st.pagesObject = some q →
    ∃ dq, q.2 = .dict dq ∧ (dq.map Prod.fst).Nodup ∧
      dictGet "Type" dq = some (.name "Pages")

/-- Well-formedness of one object: a dictionary has no duplicate keys
(lopdf dictionaries are maps). -/
def WFObj : Obj → Prop
  | .dict d => (d.map Prod.fst).Nodup
  | .nondict => True

/-- Well-formedness of a loaded document: the object table's keys are
strictly ascending (it is a `BTreeMap`), and every dictionary is
duplicate-free. -/
def WFDoc (doc : PdfDoc) : Prop :=
  (doc.objects.map Prod.fst).Pairwise (· < ·) ∧ ∀ e ∈ doc.objects, WFObj e.2

instance (o : Obj) : Decidable (WFObj o) :=
  match o with
  | .dict d => (inferInstance : Decidable ((d.map Prod.fst).Nodup))
  | .nondict => (inferInstance : Decidable True)

instance (doc : PdfDoc) : Decidable (WFDoc doc) := by
  unfold WFDoc
  infer_instance

/-- The invariant the collection loop maintains (lines 428-453): collected
page entries and table entries have ids below the watermark, all key lists
are strictly ordered/duplicate-free, pages and table are disjoint, the
table holds no `Page`-typed object, every collected page is `Page`-typed,
every stored object is well-formed, and the watermark stays positive. -/
structure CollectInv (st : CollectState) : Prop where
  pagesLT : ∀ e ∈ st.pages, e.1 < st.maxId
  objsLT : ∀ e ∈ st.objects, e.1 < st.maxId
  pagesSorted : (st.pages.map Prod.fst).Pairwise (· < ·)
  objsSorted : (st.objects.map Prod.fst).Pairwise (· < ·)
  disj : ∀ j ∈ st.pages.map Prod.fst, j ∉ st.objects.map Prod.fst
  objsRoles : ∀ e ∈ st.objects, typeName e.2 ≠ "Page"
  pagesRole : ∀ e ∈ st.pages, typeName e.2 = "Page"
  pagesWF : ∀ e ∈ st.pages, WFObj e.2
  objsWF : ∀ e ∈ st.objects, WFObj e.2
  one_le : 1 ≤ st.maxId

/-! ## Concrete fixtures used by witnesses and counterexamples -/

/-- First source for the duplicate-roles counterexample: its Pages-root
(id 2) carries a private entry `K1`. -/
def doc1W : PdfDoc :=
  { objects :=
      [(1, .dict [("Type", .name "Catalog"), ("Pages", .ref 2)]),
       (2, .dict [("Type", .name "Pages"), ("K1", .int 1),
         ("Kids", .array [.ref 3]), ("Count", .int 1)]),
       (3, .dict [("Type", .name "Page"), ("Parent", .ref 2)])],
    maxId := 3 }

/-- Second source for the duplicate-roles counterexample: its Pages-root
(id 2 before renumbering, id 5 after) carries a private entry `K2`. -/
def doc2W : PdfDoc :=
  { objects :=
      [(1, .dict [("Type", .name "Catalog"), ("Pages", .ref 2)]),
       (2, .dict [("Type", .name "Pages"), ("K2", .int 2),
         ("Kids", .array [.ref 3]), ("Count", .int 1)]),
       (3, .dict [("Type", .name "Page"), ("Parent", .ref 2)])],
    maxId := 3 }

/-- Loader serving the two counterexample sources. -/
def load2W : List String → Option PdfDoc
  | ["a"] => some doc1W
  | ["b"] => some doc2W
  | _ => none

/-- The merged document produced from the single source `docW`. -/
def mergedW : MergedDoc :=
  { objects :=
      [(1, .dict [("Type", .name "Catalog"), ("Pages", .ref 2)]),
       (2, .dict [("Type", .name "Pages"), ("Kids", .array [.ref 3]),
         ("Count", .int 1)]),
       (3, .dict [("Type", .name "Page"), ("Parent", .ref 2)])],
    trailerRoot := 1, pageId := 2, catalogId := 1 }

/-- The merged document produced from the two sources `doc1W`, `doc2W`:
the canonical Pages-root is the *second* source's instance (renumbered to
id 5), and its dictionary carries both `K2` (its own) and `K1` (merged in
from the first source's dropped-id instance). -/
def merged2W : MergedDoc :=
  { objects :=
      [(1, .dict [("Type", .name "Catalog"), ("Pages", .ref 5)]),
       (3, .dict [("Type", .name "Page"), ("Parent", .ref 5)]),
       (5, .dict [("Type", .name "Pages"), ("K2", .int 2),
         ("Kids", .array [.ref 3, .ref 6]), ("Count", .int 2),
         ("K1", .int 1)]),
       (6, .dict [("Type", .name "Page"), ("Parent", .ref 5)])],
    trailerRoot := 1, pageId := 5, catalogId := 1 }


/-- A one-page source document used by the concrete witnesses. -/
def docW : PdfDoc :=
  { objects :=
      [(1, .dict [("Type", .name "Catalog"), ("Pages", .ref 2)]),
       (2, .dict [("Type", .name "Pages"), ("Kids", .array [.ref 3]),
         ("Count", .int 1)]),
       (3, .dict [("Type", .name "Page"), ("Parent", .ref 2)])],
    maxId := 3 }

/-- A concrete environment: the folder canonicalizes to `["root"]`, one
real file `root/a.pdf` loading to `docW`, everything else missing. -/
def envW : Env :=
  { folderOk := true,
    folderCanon := some ["root"],
    fileExists := fun p => p = "root/a.pdf",
    canonicalize := fun p => if p = "root/a.pdf" then some ["root", "a.pdf"] else none,
    convert := fun _ => none,
    load := fun p => if p = ["root", "a.pdf"] then some docW else none }

/-- The file entry for `root/a.pdf`. -/
def goodFileW : InvoiceFile :=
  { path := "root/a.pdf", file_name := "a.pdf", ext := "pdf",
    modified_ts := 0, size := 1 }

/-- A file entry whose path does not exist in `envW`. -/
def badFileW : InvoiceFile :=
  { path := "missing", file_name := "bad.pdf", ext := "pdf",
    modified_ts := 0, size := 1 }


/-! ## Supporting lemmas -/

lemma displaySize_bounds (w h : ℕ) (hw : 0 < w) (hh : 0 < h) :
    (displaySize w h).1 ≤ 210 ∧ (displaySize w h).2 ≤ 297 ∧
    ((displaySize w h).1 = 210 ∨ (displaySize w h).2 = 297) := by
  have hw' : (0 : ℚ) < (w : ℚ) := by exact_mod_cast hw
  have hh' : (0 : ℚ) < (h : ℚ) := by exact_mod_cast hh
  have ha : (0 : ℚ) < (w : ℚ) / (h : ℚ) := div_pos hw' hh'
  simp only [displaySize]
  split_ifs with hc
  · have hlt : (297 : ℚ) * ((w : ℚ) / (h : ℚ)) < 210 := by
      have h2 := (lt_div_iff₀ ha).mp hc
      linarith
    exact ⟨le_of_lt hlt, le_refl _, Or.inr rfl⟩
  · exact ⟨le_refl _, le_of_not_lt hc, Or.inl rfl⟩

/-! ## C3: placed image fits the 210mm x 297mm page and is centered -/

/-- C3: for positive pixel dimensions the computed placement satisfies
`display_width ≤ 210` and `display_height ≤ 297`, at least one bound is
attained exactly, the image is centered via
`offset = (bound - display)/2` on each axis, and the placed rectangle
lies inside the page (no crop, no overflow). -/
theorem C3_placement_fits_page (w h : ℕ) (hw : 0 < w) (hh : 0 < h) :
    (displaySize w h).1 ≤ 210 ∧ (displaySize w h).2 ≤ 297 ∧
    ((displaySize w h).1 = 210 ∨ (displaySize w h).2 = 297) ∧
    offsetX w h = (210 - (displaySize w h).1) / 2 ∧
    offsetY w h = (297 - (displaySize w h).2) / 2 ∧
    0 ≤ offsetX w h ∧ offsetX w h + (displaySize w h).1 ≤ 210 ∧
    0 ≤ offsetY w h ∧ offsetY w h + (displaySize w h).2 ≤ 297 := by
  obtain ⟨h1, h2, h3⟩ := displaySize_bounds w h hw hh
  refine ⟨h1, h2, h3, rfl, rfl, ?_, ?_, ?_, ?_⟩ <;>
    simp only [offsetX, offsetY] <;> linarith

/-- Witness for C3 at the concrete raster 800 x 600. -/
theorem C3_placement_fits_page_witness :
    0 < 800 ∧ 0 < 600 ∧
    ((displaySize 800 600).1 ≤ 210 ∧ (displaySize 800 600).2 ≤ 297 ∧
    ((displaySize 800 600).1 = 210 ∨ (displaySize 800 600).2 = 297) ∧
    offsetX 800 600 = (210 - (displaySize 800 600).1) / 2 ∧
    offsetY 800 600 = (297 - (displaySize 800 600).2) / 2 ∧
    0 ≤ offsetX 800 600 ∧ offsetX 800 600 + (displaySize 800 600).1 ≤ 210 ∧
    0 ≤ offsetY 800 600 ∧ offsetY 800 600 + (displaySize 800 600).2 ≤ 297) :=
  ⟨by norm_num, by norm_num,
    C3_placement_fits_page 800 600 (by norm_num) (by norm_num)⟩

/-! ## C4: alpha flattening against white -/

/-- The blending formula exactly as the specification words it:
`round(clamp(source_channel * alpha_fraction + 255 * (1 - alpha_fraction), 0, 255))`
with `alpha_fraction = alpha_byte / 255` (clamp inside, round outside). -/
def blendSpecFormula (c a : ℕ) : ℤ :=
  round (max 0 (min 255 ((c : ℚ) * ((a : ℚ) / 255) + 255 * (1 - (a : ℚ) / 255))))

lemma blend_value_bounds (c a : ℕ) (hc : c ≤ 255) (ha : a ≤ 255) :
    0 ≤ (c : ℚ) * ((a : ℚ) / 255) + 255 * (1 - (a : ℚ) / 255) ∧
    (c : ℚ) * ((a : ℚ) / 255) + 255 * (1 - (a : ℚ) / 255) ≤ 255 := by
  have hc' : (c : ℚ) ≤ 255 := by exact_mod_cast hc
  have ha' : (a : ℚ) ≤ 255 := by exact_mod_cast ha
  have hc0 : (0 : ℚ) ≤ (c : ℚ) := by positivity
  have ha0 : (0 : ℚ) ≤ (a : ℚ) := by positivity
  have hfrac0 : (0 : ℚ) ≤ (a : ℚ) / 255 := by positivity
  have hfrac1 : (a : ℚ) / 255 ≤ 1 := by
    rw [div_le_one (by norm_num : (0:ℚ) < 255)]; exact ha'
  constructor
  · nlinarith
  · nlinarith

lemma round_bounds_of_le {x : ℚ} (h0 : 0 ≤ x) (h1 : x ≤ 255) :
    0 ≤ round x ∧ round x ≤ 255 := by
  rw [round_eq]
  constructor
  · exact Int.le_floor.mpr (by push_cast; linarith)
  · have : (⌊x + 1 / 2⌋ : ℤ) < 256 := by
      rw [Int.floor_lt]; push_cast; linarith
    omega

/-- C4: the per-channel blend computed by the code equals the
specification's `round(clamp(c * af + 255 * (1 - af), 0, 255))` with
`af = a/255`; a fully opaque pixel leaves the channel unchanged; a fully
transparent pixel yields 255; and flattening maps each RGBA pixel of the
input to exactly one 3-channel RGB pixel (no alpha in the output type). -/
theorem C4_alpha_flatten (c a : ℕ) (hc : c ≤ 255) (ha : a ≤ 255) :
    (blend_channel c ((a : ℚ) / 255) : ℤ) = blendSpecFormula c a ∧
    blend_channel c ((255 : ℚ) / 255) = c ∧
    blend_channel c ((0 : ℚ) / 255) = 255 ∧
    ∀ ps : List (ℕ × ℕ × ℕ × ℕ), (flatten_rgba ps).length = ps.length := by
  obtain ⟨hv0, hv1⟩ := blend_value_bounds c a hc ha
  obtain ⟨hr0, hr1⟩ := round_bounds_of_le hv0 hv1
  refine ⟨?_, ?_, ?_, ?_⟩
  · simp only [blend_channel, blendSpecFormula]
    rw [min_eq_right hv1, max_eq_right hv0, max_eq_right hr0, min_eq_right hr1,
      Int.toNat_of_nonneg hr0]
  · simp only [blend_channel]
    have hval : (c : ℚ) * ((255 : ℚ) / 255) + 255 * (1 - (255 : ℚ) / 255) = (c : ℚ) := by
      norm_num
    rw [hval, round_natCast]
    have hc' : (c : ℤ) ≤ 255 := by exact_mod_cast hc
    rw [max_eq_right (by positivity : (0 : ℤ) ≤ (c : ℤ)), min_eq_right hc']
    exact Int.toNat_natCast c
  · simp only [blend_channel]
    have hval : (c : ℚ) * ((0 : ℚ) / 255) + 255 * (1 - (0 : ℚ) / 255) = (255 : ℚ) := by
      norm_num
    rw [hval]
    have h255 : round (255 : ℚ) = (255 : ℤ) := by
      norm_num [round_eq]
    rw [h255]
    rfl
  · intro ps
    unfold flatten_rgba
    exact List.length_map _ _

/-- Witness for C4 at channel byte 100 and alpha byte 128. -/
theorem C4_alpha_flatten_witness :
    100 ≤ 255 ∧ 128 ≤ 255 ∧
    ((blend_channel 100 ((128 : ℚ) / 255) : ℤ) = blendSpecFormula 100 128 ∧
    blend_channel 100 ((255 : ℚ) / 255) = 100 ∧
    blend_channel 100 ((0 : ℚ) / 255) = 255 ∧
    ∀ ps : List (ℕ × ℕ × ℕ × ℕ), (flatten_rgba ps).length = ps.length) :=
  ⟨by norm_num, by norm_num,
    C4_alpha_flatten 100 128 (by norm_num) (by norm_num)⟩

/-! ## C5: planar (HEIC) stride validation and repacking -/

lemma flatMapRange_length (f : ℕ → List ℕ) (n k : ℕ)
    (h : ∀ i, i < n → (f i).length = k) :
    ((List.range n).flatMap f).length = n * k := by
  induction n with
  | zero => simp
  | succ m ih =>
    rw [List.range_succ, List.flatMap_append, List.length_append,
      ih (fun i hi => h i (Nat.lt_succ_of_lt hi))]
    simp [h m (Nat.lt_succ_self m), Nat.succ_mul]

lemma flatMapRange_chunk (f : ℕ → List ℕ) (n k : ℕ)
    (h : ∀ i, i < n → (f i).length = k) (i : ℕ) (hi : i < n) :
    (((List.range n).flatMap f).drop (i * k)).take k = f i := by
  induction n with
  | zero => omega
  | succ m ih =>
    rw [List.range_succ, List.flatMap_append]
    have hlen : ((List.range m).flatMap f).length = m * k :=
      flatMapRange_length f m k (fun j hj => h j (Nat.lt_succ_of_lt hj))
    by_cases him : i < m
    · have hik : i * k + k ≤ m * k := by
        have : (i + 1) * k ≤ m * k := Nat.mul_le_mul_right k him
        linarith [Nat.succ_mul i k]
      rw [List.drop_append_of_le_length (by omega),
        List.take_append_of_le_length (by simp [hlen]; omega)]
      exact ih (fun j hj => h j (Nat.lt_succ_of_lt hj)) him
    · have him' : i = m := by omega
      subst him'
      have hfm : ([i].flatMap f) = f i := by simp
      rw [hfm, ← hlen, List.drop_left]
      exact List.take_of_length_le (le_of_eq (h i hi))

/-- C5: a planar decode with stride smaller than `width * channels` fails
with a decode error; otherwise (whenever libheif hands back at least
`stride * height` bytes, as it always does) the repacked buffer has
length exactly `width * height * channels`, and the `row`-th destination
row is exactly the first `width * channels` bytes of the `row`-th strided
source row — no stride padding leaks into the packed result. -/
theorem C5_heic_repack (p : HeifPlane) :
    (p.stride < p.width * planeChannels p →
      repackPlane p = .error (.Image "HEIC stride smaller than row width")) ∧
    (p.width * planeChannels p ≤ p.stride →
      p.stride * p.height ≤ p.data.length →
      ∃ buf, repackPlane p = .ok buf ∧
        buf.length = p.width * p.height * planeChannels p ∧
        ∀ row, row < p.height →
          (buf.drop (row * (p.width * planeChannels p))).take
              (p.width * planeChannels p)
            = (p.data.drop (row * p.stride)).take (p.width * planeChannels p)) := by
  constructor
  · intro hlt
    simp only [repackPlane]
    rw [if_pos hlt]
  · intro hge hdata
    have hrow : ∀ row, row < p.height →
        ((p.data.drop (row * p.stride)).take (p.width * planeChannels p)).length
          = p.width * planeChannels p := by
      intro row hr
      rw [List.length_take, List.length_drop]
      have h1 : row * p.stride + p.width * planeChannels p ≤ p.data.length := by
        have h2 : row * p.stride + p.stride ≤ p.height * p.stride := by
          have : (row + 1) * p.stride ≤ p.height * p.stride :=
            Nat.mul_le_mul_right p.stride hr
          linarith [Nat.succ_mul row p.stride]
        have h3 : p.height * p.stride ≤ p.data.length := by
          rw [Nat.mul_comm]; exact hdata
        omega
      omega
    refine ⟨(List.range p.height).flatMap (fun row =>
      (p.data.drop (row * p.stride)).take (p.width * planeChannels p)), ?_, ?_, ?_⟩
    · simp only [repackPlane]
      rw [if_neg (by omega)]
    · rw [flatMapRange_length _ _ _ hrow]
      ring
    · intro row hr
      rw [flatMapRange_chunk _ _ _ hrow row hr]

/-- Witness for C5: the error branch at a 2 x 2, 3-channel plane with
stride 5 (< 6), and the success branch at stride 7 with one padding byte
per row. -/
theorem C5_heic_repack_witness :
    ((HeifPlane.mk 2 2 5 24 []).stride
        < (HeifPlane.mk 2 2 5 24 []).width * planeChannels (HeifPlane.mk 2 2 5 24 []) →
      repackPlane (HeifPlane.mk 2 2 5 24 [])
        = .error (.Image "HEIC stride smaller than row width")) ∧
    repackPlane (HeifPlane.mk 2 2 5 24 [])
      = .error (.Image "HEIC stride smaller than row width") ∧
    (∃ buf,
      repackPlane (HeifPlane.mk 2 2 7 24 [1, 2, 3, 4, 5, 6, 0, 7, 8, 9, 10, 11, 12, 0])
        = .ok buf ∧
      buf.length = 2 * 2 * 3 ∧
      ∀ row, row < 2 →
        (buf.drop (row * (2 * 3))).take (2 * 3)
          = (([1, 2, 3, 4, 5, 6, 0, 7, 8, 9, 10, 11, 12, 0] : List ℕ).drop (row * 7)).take
              (2 * 3)) := by
  refine ⟨(C5_heic_repack _).1, (C5_heic_repack _).1 (by decide), ?_⟩
  have h := (C5_heic_repack (HeifPlane.mk 2 2 7 24
    [1, 2, 3, 4, 5, 6, 0, 7, 8, 9, 10, 11, 12, 0])).2 (by decide) (by decide)
  simpa [planeChannels] using h

/-! ## C7: embedding scale factors

The claim says the base size is `pixel_dimension / 150 * 72` and that a
zero pixel dimension makes the base degenerate and forces the fallback
scale `1.0`.  The code computes the base from `dim.max(1)`, so the base is
never zero and the fallback branch is dead: at pixel height 0 the code
yields scale 0, not 1. -/

/-- Counterexample to C7 as stated: for a 100 x 0 raster the vertical
base is `max(0,1)/150*72 = 12/25 ≠ 0` (so the claimed degenerate case
does not arise in the code even though the pixel dimension is zero) and
the computed vertical scale factor is `0`, not the claimed fallback `1`.
(At this input the rational model agrees with the `f64` code:
`aspect = 100/0` only feeds `display_h = 210/aspect = 0`, and the
branch `display_h > 297` is not taken.) -/
theorem C7_counterexample :
    baseHeightPt 0 = 12 / 25 ∧ baseHeightPt 0 ≠ 0 ∧
    scaleY 100 0 = 0 ∧ (0 : ℚ) ≠ 1 := by
  refine ⟨?_, ?_, ?_, by norm_num⟩
  · norm_num [baseHeightPt]
  · norm_num [baseHeightPt]
  · norm_num [scaleY, baseHeightPt, targetHeightPt, displaySize]

/-- C7 as amended: the base size on each axis is
`max(pixel_dimension, 1) / 150 * 72` points, which is always positive, so
the `1.0` fallback never triggers and the scale factor is always
`display_size_in_points / base_size`; for pixel dimensions ≥ 1 the base
equals the claimed `pixel_dimension / 150 * 72`. -/
theorem C7_scale_amended (w h : ℕ) :
    0 < baseWidthPt w ∧ 0 < baseHeightPt h ∧
    scaleX w h = targetWidthPt w h / baseWidthPt w ∧
    scaleY w h = targetHeightPt w h / baseHeightPt h ∧
    (1 ≤ w → baseWidthPt w = (w : ℚ) / 150 * 72) ∧
    (1 ≤ h → baseHeightPt h = (h : ℚ) / 150 * 72) := by
  have hbw : 0 < baseWidthPt w := by
    unfold baseWidthPt
    have h1 : (1 : ℚ) ≤ ((max w 1 : ℕ) : ℚ) := by
      exact_mod_cast Nat.le_max_right w 1
    positivity
  have hbh : 0 < baseHeightPt h := by
    unfold baseHeightPt
    have h1 : (1 : ℚ) ≤ ((max h 1 : ℕ) : ℚ) := by
      exact_mod_cast Nat.le_max_right h 1
    positivity
  refine ⟨hbw, hbh, ?_, ?_, ?_, ?_⟩
  · rw [scaleX, if_neg (ne_of_gt hbw)]
  · rw [scaleY, if_neg (ne_of_gt hbh)]
  · intro hw
    unfold baseWidthPt
    rw [Nat.max_eq_left hw]
  · intro hh
    unfold baseHeightPt
    rw [Nat.max_eq_left hh]

/-- Witness for the amended C7 at the concrete raster 800 x 600. -/
theorem C7_scale_amended_witness :
    (0 < baseWidthPt 800 ∧ 0 < baseHeightPt 600 ∧
      scaleX 800 600 = targetWidthPt 800 600 / baseWidthPt 800 ∧
      scaleY 800 600 = targetHeightPt 800 600 / baseHeightPt 600 ∧
      (1 ≤ 800 → baseWidthPt 800 = (800 : ℚ) / 150 * 72) ∧
      (1 ≤ 600 → baseHeightPt 600 = (600 : ℚ) / 150 * 72)) ∧
    baseWidthPt 800 = (800 : ℚ) / 150 * 72 :=
  ⟨C7_scale_amended 800 600, (C7_scale_amended 800 600).2.2.2.2.1 (by norm_num)⟩

/-! ## C9: output file name resolution

The claim says the non-empty caller-supplied name is used *trimmed*; the
code only trims for the emptiness test and keeps the original name,
and its suffix test lowercases ASCII first. -/

/-- Counterexample to C9 as stated: for the caller-supplied name
`" a "` (which trims to the non-empty `"a"`), the code produces
`" a .pdf"` — the untrimmed name with the suffix appended — whereas the
claim's "(trimmed) caller-supplied name" would give `"a.pdf"`. -/
theorem C9_counterexample :
    resolveOutputName (some " a ") "20240101_0000" = " a .pdf" ∧
    strTrim " a " ++ ".pdf" = "a.pdf" ∧
    resolveOutputName (some " a ") "20240101_0000" ≠ strTrim " a " ++ ".pdf" := by
  refine ⟨?_, by decide, by decide⟩
  decide

/-- C9 as amended: the resolved output name is a timestamped default when
the caller-supplied name is absent or trims to empty; otherwise it is the
caller-supplied name *unchanged* (trimming is used only for the emptiness
test), with `".pdf"` appended exactly when the ASCII-lowercased name does
not already end with `".pdf"`. -/
theorem C9_output_name_amended (nm ts : String) :
    resolveOutputName none ts = "merged_invoices_" ++ ts ++ ".pdf" ∧
    (strTrim nm = "" →
      resolveOutputName (some nm) ts = "merged_invoices_" ++ ts ++ ".pdf") ∧
    (strTrim nm ≠ "" → strEndsWith (asciiLowercase nm) ".pdf" = true →
      resolveOutputName (some nm) ts = nm) ∧
    (strTrim nm ≠ "" → strEndsWith (asciiLowercase nm) ".pdf" = false →
      resolveOutputName (some nm) ts = nm ++ ".pdf") := by
  refine ⟨rfl, ?_, ?_, ?_⟩
  · intro hempty
    simp only [resolveOutputName]
    rw [if_pos hempty]
  · intro hne hsuf
    simp only [resolveOutputName]
    rw [if_neg hne, if_pos hsuf]
  · intro hne hsuf
    simp only [resolveOutputName]
    rw [if_neg hne, if_neg (by simp [hsuf])]

/-- Witness for the amended C9 at the concrete name `"June invoices"`. -/
theorem C9_output_name_amended_witness :
    strTrim "June invoices" ≠ "" ∧
    strEndsWith (asciiLowercase "June invoices") ".pdf" = false ∧
    resolveOutputName (some "June invoices") "20240101_0000"
      = "June invoices" ++ ".pdf" :=
  ⟨by decide, by decide,
    (C9_output_name_amended "June invoices" "20240101_0000").2.2.2
      (by decide) (by decide)⟩

/-! ## Orchestrator lemmas -/

/-- A file entry whose path is missing, fails to resolve, or resolves
outside the canonicalized source folder (the three rejections of lines
162-178). -/
def badPath (env : Env) (folderReal : List String) (f : InvoiceFile) : Prop :=
  env.fileExists f.path = false ∨
  env.canonicalize f.path = none ∨
  (∃ canon, env.canonicalize f.path = some canon ∧ ¬ folderReal.isPrefixOf canon)

lemma classifyFile_of_badPath (env : Env) (folderReal : List String)
    (f : InvoiceFile) (hbad : badPath env folderReal f) :
    classifyFile env folderReal f = .failed := by
  unfold classifyFile
  rcases hbad with hex | hcanon | ⟨canon, hcanon, hout⟩
  · rw [if_pos hex]
  · rw [hcanon]
    split <;> rfl
  · rw [hcanon]
    split
    · rfl
    · simp only [if_neg]
      rw [if_pos hout]

lemma processFiles_append (env : Env) (fr : List String)
    (l1 l2 : List InvoiceFile) :
    processFiles env fr (l1 ++ l2) =
      ((processFiles env fr l1).1 ++ (processFiles env fr l2).1,
       (processFiles env fr l1).2 ++ (processFiles env fr l2).2) := by
  induction l1 with
  | nil => simp [processFiles]
  | cons f rest ih =>
    cases h : classifyFile env fr f <;> simp [processFiles, h, ih]

lemma processFiles_cons_bad (env : Env) (fr : List String)
    (f : InvoiceFile) (l : List InvoiceFile)
    (hbad : badPath env fr f) :
    processFiles env fr (f :: l) =
      ((processFiles env fr l).1, f.file_name :: (processFiles env fr l).2) := by
  simp only [processFiles, classifyFile_of_badPath env fr f hbad]

/-- Every file contributes exactly one entry — either a document source
or a failed name — so the two output lists of the per-file loop always
partition the input. -/
lemma processFiles_length (env : Env) (fr : List String)
    (files : List InvoiceFile) :
    (processFiles env fr files).1.length + (processFiles env fr files).2.length
      = files.length := by
  induction files with
  | nil => rfl
  | cons f rest ih =>
    simp only [processFiles]
    cases h : classifyFile env fr f <;> simp only [List.length_cons] <;> omega

/-! ## C8: path-escape rejections are per-file failures, never fatal -/

/-- C8: if one entry of the processed list has a bad path (missing,
unresolvable, or escaping the source folder), then (a) the loop records
exactly that entry's display name as an extra failure and produces the
same document sources as the list without it, and (b) the rejection never
aborts the run by itself: whenever the whole run errors, the error is
already forced by the remaining entries (`NoFiles` because they produce
no sources, or an error of the merger run on their sources alone), and
whenever the run returns a result, the entry appears in its failed-file
list. -/
theorem C8_path_escape_per_file (env : Env) (req : MergeRequest) (ts : String)
    (folderReal : List String) (l1 l2 : List InvoiceFile) (f : InvoiceFile)
    (hfolder : env.folderOk = true)
    (hcanon : env.folderCanon = some folderReal)
    (hsorted : sortFiles req.sort_mode req.files = l1 ++ f :: l2)
    (hbad : badPath env folderReal f) :
    processFiles env folderReal (l1 ++ f :: l2)
      = ((processFiles env folderReal (l1 ++ l2)).1,
         (processFiles env folderReal l1).2
           ++ f.file_name :: (processFiles env folderReal l2).2) ∧
    (∀ e, mergeInvoices env req ts = .error e →
      (e = .NoFiles ∧ (processFiles env folderReal (l1 ++ l2)).1 = []) ∨
      mergePdfFiles env.load (processFiles env folderReal (l1 ++ l2)).1
        = .error e) ∧
    (∀ r, mergeInvoices env req ts = .ok r → f.file_name ∈ r.failed_files) := by
  have hsplit : processFiles env folderReal (l1 ++ f :: l2)
      = ((processFiles env folderReal (l1 ++ l2)).1,
         (processFiles env folderReal l1).2
           ++ f.file_name :: (processFiles env folderReal l2).2) := by
    rw [processFiles_append, processFiles_cons_bad env folderReal f l2 hbad,
      processFiles_append]
  refine ⟨hsplit, ?_, ?_⟩
  all_goals
    simp only [mergeInvoices, hfolder, hcanon, hsorted, hsplit]
    simp only [Bool.true_eq_false, if_false, List.length_append, List.length_cons]
    rw [if_neg (by omega)]
  · intro e he
    by_cases hempty : (processFiles env folderReal (l1 ++ l2)).1.isEmpty
    · rw [if_pos hempty] at he
      have he' : e = MergeError.NoFiles := by
        cases he
        rfl
      exact Or.inl ⟨he', List.isEmpty_iff.mp hempty⟩
    · rw [if_neg hempty] at he
      rcases hm : mergePdfFiles env.load (processFiles env folderReal (l1 ++ l2)).1 with e' | m
      · rw [hm] at he
        simp only [Except.error.injEq] at he
        subst he
        exact Or.inr rfl
      · rw [hm] at he
        simp at he
  · intro r hr
    by_cases hempty : (processFiles env folderReal (l1 ++ l2)).1.isEmpty
    · rw [if_pos hempty] at hr
      cases hr
    · rw [if_neg hempty] at hr
      rcases hm : mergePdfFiles env.load (processFiles env folderReal (l1 ++ l2)).1 with e' | m
      · rw [hm] at hr
        cases hr
      · rw [hm] at hr
        cases hr
        simp

/-! ## Merger lemmas for the NoFiles characterization -/

lemma collectDocs_eq (load : List String → Option PdfDoc)
    (files : List (List String)) (st : CollectState) :
    collectDocs load files st =
      match files.mapM load with
      | none => .error (.Pdf "failed to load document")
      | some docs => .ok (docs.foldl collectStep st) := by
  induction files generalizing st with
  | nil => rfl
  | cons p rest ih =>
    simp only [collectDocs, List.mapM_cons]
    cases hp : load p with
    | none => simp
    | some d =>
      show collectDocs load rest (collectStep st d) = _
      rw [ih]
      cases hrest : rest.mapM load with
      | none => rfl
      | some xs => rfl

lemma assembleDoc_error_ne_noFiles (pages : List (Nat × Obj))
    (rt : RouteState) :
    assembleDoc pages rt ≠ .error .NoFiles := by
  unfold assembleDoc
  rcases rt.pagesObject with _ | pq
  · simp
  · rcases rt.catalogObject with _ | cq
    · simp
    · simp

lemma processFiles_sources_empty_iff (env : Env) (fr : List String)
    (files : List InvoiceFile) :
    (processFiles env fr files).1 = [] ↔
      ∀ f ∈ files, classifyFile env fr f = .failed := by
  induction files with
  | nil => simp [processFiles]
  | cons f rest ih =>
    simp only [processFiles]
    cases h : classifyFile env fr f with
    | source p => simp [h]
    | failed => simp [h, ih]

lemma sortFiles_length (mode : SortMode) (files : List InvoiceFile) :
    (sortFiles mode files).length = files.length := by
  cases mode <;> simp [sortFiles, List.length_mergeSort]

lemma sortFiles_mem (mode : SortMode) (files : List InvoiceFile)
    (f : InvoiceFile) : f ∈ sortFiles mode files ↔ f ∈ files := by
  cases mode <;> simp [sortFiles, List.mem_mergeSort]

/-! ## C6: exact characterization of the NoFiles failure -/

/-- C6: with a valid, canonicalizable folder, the orchestrator fails with
`NoFiles` exactly when the caller-supplied list is empty, or every file
fails classification/conversion (producing zero document sources), or the
sources all load and the merger collects zero Page objects; and the
merger itself fails with `NoFiles` exactly when its input list is empty
or all its sources load and contribute zero Page objects. -/
theorem C6_noFiles_characterization (env : Env) (req : MergeRequest)
    (ts : String) (fr : List String)
    (hfolder : env.folderOk = true)
    (hcanon : env.folderCanon = some fr) :
    (mergeInvoices env req ts = .error .NoFiles ↔
      req.files = [] ∨
      (∀ f ∈ req.files, classifyFile env fr f = .failed) ∨
      (∃ docs,
        (processFiles env fr (sortFiles req.sort_mode req.files)).1.mapM env.load
          = some docs ∧ collectedPages docs = [])) ∧
    (∀ load files, mergePdfFiles load files = .error .NoFiles ↔
      files = [] ∨
      (∃ docs, files.mapM load = some docs ∧ collectedPages docs = [])) := by
  have hmerge : ∀ (load : List String → Option PdfDoc)
      (files : List (List String)),
      mergePdfFiles load files = .error .NoFiles ↔
        files = [] ∨
        (∃ docs, files.mapM load = some docs ∧ collectedPages docs = []) := by
    intro load files
    unfold mergePdfFiles
    rcases files with _ | ⟨p, rest⟩
    · simp
    · simp only [List.isEmpty_cons, if_false, Bool.false_eq_true]
      rw [collectDocs_eq]
      cases hload : (p :: rest).mapM load with
      | none =>
        simp only []
        constructor
        · intro h
          cases h
        · intro h
          rcases h with h | ⟨docs, hdocs, hpages⟩
          · cases h
          · cases hdocs
      | some docs =>
        simp only []
        by_cases hpages : (docs.foldl collectStep initCollect).pages.isEmpty
        · rw [if_pos hpages]
          constructor
          · intro _
            exact Or.inr ⟨docs, rfl, List.isEmpty_iff.mp hpages⟩
          · intro _
            rfl
        · rw [if_neg hpages]
          constructor
          · intro h
            exact absurd h (assembleDoc_error_ne_noFiles _ _)
          · intro h
            rcases h with h | ⟨docs', hdocs', hpages'⟩
            · cases h
            · cases hdocs'
              exact absurd (List.isEmpty_iff.mpr hpages') hpages
  refine ⟨?_, hmerge⟩
  simp only [mergeInvoices, hfolder, hcanon]
  simp only [Bool.true_eq_false, if_false]
  by_cases htotal : (sortFiles req.sort_mode req.files).length = 0
  · rw [if_pos htotal]
    have hfiles : req.files = [] := by
      have h := sortFiles_length req.sort_mode req.files
      rw [htotal] at h
      exact List.length_eq_zero.mp h.symm
    simp [hfiles]
  · rw [if_neg htotal]
    have hfilesne : req.files ≠ [] := by
      intro hf
      apply htotal
      rw [sortFiles_length, hf]
      rfl
    by_cases hempty : (processFiles env fr (sortFiles req.sort_mode req.files)).1.isEmpty
    · rw [if_pos hempty]
      have hall : ∀ f ∈ req.files, classifyFile env fr f = .failed := by
        intro f hf
        exact (processFiles_sources_empty_iff env fr _).mp
          (List.isEmpty_iff.mp hempty) f ((sortFiles_mem _ _ _).mpr hf)
      constructor
      · intro _
        exact Or.inr (Or.inl hall)
      · intro _
        rfl
    · rw [if_neg hempty]
      rcases hm : mergePdfFiles env.load
          (processFiles env fr (sortFiles req.sort_mode req.files)).1 with e | m
      · simp only []
        have hiff := hmerge env.load
          (processFiles env fr (sortFiles req.sort_mode req.files)).1
        rw [hm] at hiff
        constructor
        · intro h
          have he : e = .NoFiles := by
            cases h
            rfl
          subst he
          rcases hiff.mp rfl with h' | h'
          · exact absurd (List.isEmpty_iff.mpr h') hempty
          · exact Or.inr (Or.inr h')
        · intro h
          rcases h with h | h | h
          · exact absurd h hfilesne
          · exact absurd (List.isEmpty_iff.mpr
              ((processFiles_sources_empty_iff env fr _).mpr
                (fun f hf => h f ((sortFiles_mem _ _ _).mp hf)))) hempty
          · have : Except.error (ε := MergeError) (α := MergedDoc) e
                = .error .NoFiles := hiff.mpr (Or.inr h)
            cases this
            rfl
      · simp only []
        constructor
        · intro h
          cases h
        · intro h
          rcases h with h | h | h
          · exact absurd h hfilesne
          · exact absurd (List.isEmpty_iff.mpr
              ((processFiles_sources_empty_iff env fr _).mpr
                (fun f hf => h f ((sortFiles_mem _ _ _).mp hf)))) hempty
          · have hiff := hmerge env.load
              (processFiles env fr (sortFiles req.sort_mode req.files)).1
            rw [hm] at hiff
            have : Except.ok (ε := MergeError) m = .error .NoFiles :=
              hiff.mpr (Or.inr h)
            cases this

/-- Witness for C6: the empty request against the concrete environment
fails with `NoFiles`. -/
theorem C6_noFiles_characterization_witness :
    mergeInvoices envW
        { folder_path := "root", files := [], sort_mode := .Custom,
          output_file_name := none } "TS"
      = .error .NoFiles :=
  ((C6_noFiles_characterization envW
      { folder_path := "root", files := [], sort_mode := .Custom,
        output_file_name := none } "TS" ["root"] rfl rfl).1).mpr (Or.inl rfl)

/-! ## C10: every returned MergeResult has success = true -/

/-- C10: whenever the orchestrator returns a result at all (a non-error
outcome), its `success` flag is `true`: a run in which every file fails
produces zero document sources and aborts with `NoFiles` before a result
is constructed, so `failed_count < total_count` holds in every
constructed result. -/
theorem C10_success_always_true (env : Env) (req : MergeRequest) (ts : String)
    (r : MergeResult) (h : mergeInvoices env req ts = .ok r) :
    r.success = true := by
  simp only [mergeInvoices] at h
  split at h
  · cases h
  · split at h
    · cases h
    · rename_i folderReal heq
      split at h
      · cases h
      · rename_i htotal
        split at h
        · cases h
        · rename_i hinputs
          split at h
          · cases h
          · cases h
            simp only [decide_eq_true_eq]
            have hlen := processFiles_length env folderReal
              (sortFiles req.sort_mode req.files)
            have hpos :
                0 < (processFiles env folderReal
                  (sortFiles req.sort_mode req.files)).1.length := by
              rcases hni : (processFiles env folderReal
                  (sortFiles req.sort_mode req.files)).1 with _ | ⟨p, ps⟩
              · rw [hni] at hinputs
                simp at hinputs
              · simp [hni]
            omega

/-- Witness for C10: a concrete successful single-file run returns
`success = true`. -/
theorem C10_success_always_true_witness :
    mergeInvoices envW
        { folder_path := "root", files := [goodFileW], sort_mode := .Custom,
          output_file_name := some "out.pdf" } "TS"
      = .ok { success := true, output_path := ["root", "out.pdf"],
              failed_files := [], message := none } ∧
    ({ success := true, output_path := ["root", "out.pdf"],
       failed_files := [], message := none } : MergeResult).success = true :=
  ⟨rfl, C10_success_always_true envW
    { folder_path := "root", files := [goodFileW], sort_mode := .Custom,
      output_file_name := some "out.pdf" } "TS"
    { success := true, output_path := ["root", "out.pdf"],
      failed_files := [], message := none } rfl⟩

/-- Witness for C8: with a missing-path entry ahead of one valid entry,
the loop splits exactly as the theorem states and every returned result
lists the bad entry among the failed files. -/
theorem C8_path_escape_per_file_witness :
    processFiles envW ["root"] ([] ++ badFileW :: [goodFileW])
      = ((processFiles envW ["root"] ([] ++ [goodFileW])).1,
         (processFiles envW ["root"] []).2
           ++ badFileW.file_name :: (processFiles envW ["root"] [goodFileW]).2) ∧
    ∀ r, mergeInvoices envW
        { folder_path := "root", files := [badFileW, goodFileW],
          sort_mode := .Custom, output_file_name := some "out.pdf" } "TS"
        = .ok r → badFileW.file_name ∈ r.failed_files := by
  have h := C8_path_escape_per_file envW
    { folder_path := "root", files := [badFileW, goodFileW],
      sort_mode := .Custom, output_file_name := some "out.pdf" } "TS"
    ["root"] [] [goodFileW] badFileW rfl rfl rfl (Or.inl (by decide))
  exact ⟨h.1, h.2.2⟩

/-! ## Association-list (BTreeMap) lemmas -/

lemma mem_btreeInsert (k : Nat) (v : Obj) (l : List (Nat × Obj))
    (e : Nat × Obj) : e ∈ btreeInsert k v l → e = (k, v) ∨ e ∈ l := by
  induction l with
  | nil =>
    intro he
    simp only [btreeInsert, List.mem_singleton] at he
    exact Or.inl he
  | cons hd tl ih =>
    obtain ⟨k1, v1⟩ := hd
    intro he
    simp only [btreeInsert] at he
    by_cases h1 : k < k1
    · rw [if_pos h1] at he
      rcases List.mem_cons.mp he with he | he
      · exact Or.inl he
      · exact Or.inr he
    · rw [if_neg h1] at he
      by_cases h2 : k = k1
      · rw [if_pos h2] at he
        rcases List.mem_cons.mp he with he | he
        · exact Or.inl he
        · exact Or.inr (List.mem_cons_of_mem _ he)
      · rw [if_neg h2] at he
        rcases List.mem_cons.mp he with he | he
        · exact Or.inr (he ▸ List.mem_cons_self _ _)
        · rcases ih he with h | h
          · exact Or.inl h
          · exact Or.inr (List.mem_cons_of_mem _ h)

lemma keys_btreeInsert (k : Nat) (v : Obj) (l : List (Nat × Obj)) (j : Nat) :
    j ∈ (btreeInsert k v l).map Prod.fst ↔ j = k ∨ j ∈ l.map Prod.fst := by
  induction l with
  | nil => simp [btreeInsert]
  | cons hd tl ih =>
    obtain ⟨k1, v1⟩ := hd
    simp only [btreeInsert]
    by_cases h1 : k < k1
    · rw [if_pos h1]
      simp only [List.map_cons, List.mem_cons]
      try tauto
    · rw [if_neg h1]
      by_cases h2 : k = k1
      · rw [if_pos h2]
        subst h2
        simp only [List.map_cons, List.mem_cons]
        try tauto
      · rw [if_neg h2]
        simp only [List.map_cons, List.mem_cons, ih]
        tauto

lemma btreeInsert_sorted (k : Nat) (v : Obj) (l : List (Nat × Obj))
    (hs : (l.map Prod.fst).Pairwise (· < ·)) :
    ((btreeInsert k v l).map Prod.fst).Pairwise (· < ·) := by
  induction l with
  | nil => simp [btreeInsert]
  | cons hd tl ih =>
    obtain ⟨k1, v1⟩ := hd
    simp only [List.map_cons, List.pairwise_cons] at hs
    obtain ⟨hhd, htl⟩ := hs
    simp only [btreeInsert]
    by_cases h1 : k < k1
    · rw [if_pos h1]
      simp only [List.map_cons, List.pairwise_cons]
      refine ⟨?_, ?_⟩
      · intro j hj
        rcases List.mem_cons.mp hj with hj | hj
        · omega
        · have := hhd j hj
          omega
      · exact ⟨hhd, htl⟩
    · rw [if_neg h1]
      by_cases h2 : k = k1
      · rw [if_pos h2]
        subst h2
        simp only [List.map_cons, List.pairwise_cons]
        exact ⟨hhd, htl⟩
      · rw [if_neg h2]
        simp only [List.map_cons, List.pairwise_cons]
        refine ⟨?_, ih htl⟩
        intro j hj
        rcases (keys_btreeInsert k v tl j).mp hj with hj | hj
        · omega
        · exact hhd j hj

lemma lookup_btreeInsert_self (k : Nat) (v : Obj) (l : List (Nat × Obj)) :
    (btreeInsert k v l).lookup k = some v := by
  induction l with
  | nil => simp [btreeInsert, List.lookup]
  | cons hd tl ih =>
    obtain ⟨k1, v1⟩ := hd
    simp only [btreeInsert]
    by_cases h1 : k < k1
    · rw [if_pos h1]
      simp [List.lookup]
    · rw [if_neg h1]
      by_cases h2 : k = k1
      · rw [if_pos h2]
        simp [List.lookup]
      · rw [if_neg h2]
        have hb : (k == k1) = false := beq_eq_false_iff_ne.mpr h2
        simp [List.lookup, hb, ih]

lemma lookup_btreeInsert_ne (k : Nat) (v : Obj) (l : List (Nat × Obj))
    (j : Nat) (hj : j ≠ k) :
    (btreeInsert k v l).lookup j = l.lookup j := by
  have hbk : (j == k) = false := beq_eq_false_iff_ne.mpr hj
  induction l with
  | nil => simp [btreeInsert, List.lookup, hbk]
  | cons hd tl ih =>
    obtain ⟨k1, v1⟩ := hd
    simp only [btreeInsert]
    by_cases h1 : k < k1
    · rw [if_pos h1]
      simp [List.lookup, hbk]
    · rw [if_neg h1]
      by_cases h2 : k = k1
      · rw [if_pos h2]
        subst h2
        simp [List.lookup, hbk]
      · rw [if_neg h2]
        by_cases h3 : j = k1
        · subst h3
          simp [List.lookup]
        · have hb3 : (j == k1) = false := beq_eq_false_iff_ne.mpr h3
          simp [List.lookup, hb3, ih]

lemma countP_btreeInsert_fresh (k : Nat) (v : Obj) (l : List (Nat × Obj))
    (p : Nat × Obj → Bool) (hk : k ∉ l.map Prod.fst) :
    (btreeInsert k v l).countP p = l.countP p + (if p (k, v) then 1 else 0) := by
  induction l with
  | nil => simp [btreeInsert, List.countP_cons]
  | cons hd tl ih =>
    obtain ⟨k1, v1⟩ := hd
    simp only [List.map_cons, List.mem_cons] at hk
    push_neg at hk
    obtain ⟨hk1, hk2⟩ := hk
    simp only [btreeInsert]
    by_cases h1 : k < k1
    · rw [if_pos h1]
      simp only [List.countP_cons]
      try omega
    · rw [if_neg h1]
      by_cases h2 : k = k1
      · exact absurd h2 hk1
      · rw [if_neg h2]
        simp only [List.countP_cons, ih hk2]
        omega

/-! ## Dictionary lemmas -/

lemma dictGet_dictSet_self (k : String) (v : Val) (d : Dict) :
    dictGet k (dictSet k v d) = some v := by
  induction d with
  | nil => simp [dictSet, dictGet]
  | cons hd tl ih =>
    simp only [dictSet]
    split
    · simp [dictGet]
    · rename_i hne
      have : hd.1 ≠ k := hne
      simp [dictGet, this, ih]

lemma dictGet_dictSet_ne (k k' : String) (v : Val) (d : Dict)
    (h : k ≠ k') :
    dictGet k (dictSet k' v d) = dictGet k d := by
  induction d with
  | nil => simp [dictSet, dictGet, Ne.symm h]
  | cons hd tl ih =>
    simp only [dictSet]
    split
    · rename_i heq
      simp [dictGet, heq, Ne.symm h]
    · simp only [dictGet, ih]

lemma dictGet_dictRemove_ne (k k' : String) (d : Dict) (h : k ≠ k') :
    dictGet k (dictRemove k' d) = dictGet k d := by
  induction d with
  | nil => simp [dictRemove]
  | cons hd tl ih =>
    simp only [dictRemove]
    split
    · rename_i heq
      simp [dictGet, heq, Ne.symm h]
    · simp only [dictGet, ih]

lemma keys_dictSet (k k' : String) (v : Val) (d : Dict) :
    k' ∈ (dictSet k v d).map Prod.fst ↔ k' = k ∨ k' ∈ d.map Prod.fst := by
  induction d with
  | nil => simp [dictSet]
  | cons hd tl ih =>
    simp only [dictSet]
    split
    · rename_i heq
      subst heq
      simp
    · simp only [List.map_cons, List.mem_cons, ih]
      tauto

lemma nodup_dictSet (k : String) (v : Val) (d : Dict)
    (hd : (d.map Prod.fst).Nodup) : ((dictSet k v d).map Prod.fst).Nodup := by
  induction d with
  | nil => simp [dictSet]
  | cons e tl ih =>
    simp only [List.map_cons, List.nodup_cons] at hd
    obtain ⟨h1, h2⟩ := hd
    simp only [dictSet]
    split
    · rename_i heq
      subst heq
      simp only [List.map_cons, List.nodup_cons]
      exact ⟨h1, h2⟩
    · rename_i hne
      simp only [List.map_cons, List.nodup_cons]
      refine ⟨?_, ih h2⟩
      intro hmem
      rcases (keys_dictSet k e.1 v tl).mp hmem with h | h
      · exact hne h
      · exact h1 h

lemma dictGet_map (g : Val → Val) (k : String) (d : Dict) :
    dictGet k (d.map (fun kv => (kv.1, g kv.2))) = (dictGet k d).map g := by
  induction d with
  | nil => simp [dictGet]
  | cons hd tl ih =>
    simp only [List.map_cons, dictGet]
    split <;> simp [ih]

lemma mapValRefs_name_iff (f : Nat → Nat) (v : Val) (s : String) :
    mapValRefs f v = .name s ↔ v = .name s := by
  cases v <;> simp [mapValRefs]

lemma typeName_mapObjRefs (f : Nat → Nat) (o : Obj) :
    typeName (mapObjRefs f o) = typeName o := by
  cases o with
  | nondict => rfl
  | dict d =>
    simp only [mapObjRefs, typeName, dictGet_map]
    cases h : dictGet "Type" d with
    | none => rfl
    | some v => cases v <;> simp [mapValRefs]

lemma dictGet_eq_none_iff (k : String) (d : Dict) :
    dictGet k d = none ↔ k ∉ d.map Prod.fst := by
  induction d with
  | nil => simp [dictGet]
  | cons e tl ih =>
    simp only [dictGet, List.map_cons, List.mem_cons]
    by_cases h : e.1 = k
    · simp [h]
    · simp [h, ih, Ne.symm h]

lemma dictGet_dictExtend_not_mem (d other : Dict) (k : String)
    (h : k ∉ other.map Prod.fst) :
    dictGet k (dictExtend d other) = dictGet k d := by
  induction other generalizing d with
  | nil => rfl
  | cons e rest ih =>
    simp only [List.map_cons, List.mem_cons] at h
    push_neg at h
    show dictGet k (dictExtend (dictSet e.1 e.2 d) rest) = dictGet k d
    rw [ih _ h.2, dictGet_dictSet_ne _ _ _ _ h.1]

lemma dictGet_dictExtend_mem (d other : Dict) (k : String) (v : Val)
    (hnd : (other.map Prod.fst).Nodup) (h : dictGet k other = some v) :
    dictGet k (dictExtend d other) = some v := by
  induction other generalizing d with
  | nil => cases h
  | cons e rest ih =>
    simp only [List.map_cons, List.nodup_cons] at hnd
    obtain ⟨hnotin, hnd'⟩ := hnd
    simp only [dictGet] at h
    show dictGet k (dictExtend (dictSet e.1 e.2 d) rest) = some v
    by_cases he : e.1 = k
    · rw [if_pos he] at h
      cases h
      subst he
      rw [dictGet_dictExtend_not_mem _ _ _ hnotin, dictGet_dictSet_self]
    · rw [if_neg he] at h
      exact ih _ hnd' h

lemma isSome_dictGet_dictSet (k k' : String) (v : Val) (d : Dict) :
    (dictGet k (dictSet k' v d)).isSome
      ↔ k = k' ∨ (dictGet k d).isSome := by
  by_cases h : k = k'
  · subst h
    simp [dictGet_dictSet_self]
  · rw [dictGet_dictSet_ne _ _ _ _ h]
    simp [h]

lemma isSome_dictGet_dictExtend (d other : Dict) (k : String) :
    (dictGet k (dictExtend d other)).isSome
      ↔ (dictGet k d).isSome ∨ (dictGet k other).isSome := by
  induction other generalizing d with
  | nil => simp [dictExtend, dictGet]
  | cons e rest ih =>
    show (dictGet k (dictExtend (dictSet e.1 e.2 d) rest)).isSome ↔ _
    rw [ih, isSome_dictGet_dictSet]
    simp only [dictGet]
    by_cases he : e.1 = k
    · simp [he]
    · simp only [if_neg he]
      constructor
      · rintro ((h | h) | h)
        · exact absurd h.symm he
        · exact Or.inl h
        · exact Or.inr h
      · rintro (h | h)
        · exact Or.inl (Or.inr h)
        · exact Or.inr h

lemma nodup_dictExtend (d other : Dict)
    (hd : (d.map Prod.fst).Nodup) :
    ((dictExtend d other).map Prod.fst).Nodup := by
  induction other generalizing d with
  | nil => exact hd
  | cons e rest ih =>
    show (((dictExtend (dictSet e.1 e.2 d) rest)).map Prod.fst).Nodup
    exact ih _ (nodup_dictSet _ _ _ hd)

/-! ## Renumbering lemmas -/

lemma renumAt_map (s : Nat) (ids : List Nat) (j : Nat) (hnd : ids.Nodup) :
    ids.map (fun i => renumAt s ids j i) = List.range' (s + j) ids.length := by
  induction ids generalizing j with
  | nil => rfl
  | cons k rest ih =>
    simp only [List.nodup_cons] at hnd
    obtain ⟨hk, hnd'⟩ := hnd
    have hmap : rest.map (fun i => renumAt s (k :: rest) j i)
        = rest.map (fun i => renumAt s rest (j + 1) i) := by
      apply List.map_congr_left
      intro i hi
      have hik : i ≠ k := fun hh => hk (hh ▸ hi)
      simp [renumAt, hik]
    rw [List.map_cons, hmap, ih (j + 1) hnd']
    have hhead : renumAt s (k :: rest) j k = s + j := by simp [renumAt]
    rw [hhead]
    rfl

lemma keys_renumberWith (s : Nat) (d : PdfDoc)
    (hs : (d.objects.map Prod.fst).Pairwise (· < ·)) :
    (renumberWith s d).objects.map Prod.fst = List.range' s d.objects.length := by
  have hnd : (d.objects.map Prod.fst).Nodup :=
    hs.imp (fun h => ne_of_lt h)
  have h1 : (renumberWith s d).objects.map Prod.fst
      = (d.objects.map Prod.fst).map (fun i => renumAt s (d.objects.map Prod.fst) 0 i) := by
    simp [renumberWith, renumFun, Function.comp]
  rw [h1, renumAt_map s _ 0 hnd]
  simp [List.length_map]

lemma countP_renumberWith (s : Nat) (d : PdfDoc) (r : String) :
    (renumberWith s d).objects.countP (isRole r)
      = d.objects.countP (isRole r) := by
  simp only [renumberWith, List.countP_map]
  apply List.countP_congr
  intro e _
  simp [isRole, Function.comp, typeName_mapObjRefs]

lemma maxId_renumberWith (s : Nat) (d : PdfDoc) :
    (renumberWith s d).maxId = s + d.objects.length - 1 := rfl

lemma length_renumberWith (s : Nat) (d : PdfDoc) :
    (renumberWith s d).objects.length = d.objects.length := by
  simp [renumberWith]

lemma wfobj_mapObjRefs (f : Nat → Nat) (o : Obj) (h : WFObj o) :
    WFObj (mapObjRefs f o) := by
  cases o with
  | nondict => trivial
  | dict d =>
    simp only [WFObj, mapObjRefs] at h ⊢
    have : (d.map (fun kv => (kv.1, mapValRefs f kv.2))).map Prod.fst
        = d.map Prod.fst := by
      simp [Function.comp]
    rw [this]
    exact h

/-! ## Collection-phase lemmas -/

lemma collectEntry_fold (l : List (Nat × Obj))
    (ps os : List (Nat × Obj)) :
    l.foldl collectEntry (ps, os) =
      (ps ++ l.filter (isRole "Page"),
       (l.filter (fun e => !(isRole "Page" e))).foldl
         (fun os' e => btreeInsert e.1 e.2 os') os) := by
  induction l generalizing ps os with
  | nil => simp
  | cons e rest ih =>
    simp only [List.foldl_cons, List.filter_cons]
    by_cases hp : isRole "Page" e
    · have hp' : typeName e.2 = "Page" := by
        simpa [isRole] using hp
      have hstep : collectEntry (ps, os) e = (ps ++ [e], os) := by
        simp [collectEntry, hp']
      rw [hstep, ih, hp]
      simp
    · have hp' : ¬ typeName e.2 = "Page" := by
        simpa [isRole] using hp
      have hstep : collectEntry (ps, os) e = (ps, btreeInsert e.1 e.2 os) := by
        simp [collectEntry, hp']
      rw [hstep, ih]
      simp only [Bool.not_eq_true] at hp ⊢
      rw [hp]
      simp

lemma collectStep_pages (st : CollectState) (d : PdfDoc) :
    (collectStep st d).pages
      = st.pages ++ (renumberWith st.maxId d).objects.filter (isRole "Page") := by
  simp [collectStep, collectEntry_fold]

lemma collectStep_objects (st : CollectState) (d : PdfDoc) :
    (collectStep st d).objects
      = ((renumberWith st.maxId d).objects.filter
          (fun e => !(isRole "Page" e))).foldl
            (fun os' e => btreeInsert e.1 e.2 os') st.objects := by
  simp [collectStep, collectEntry_fold]

lemma collectStep_maxId (st : CollectState) (d : PdfDoc) :
    (collectStep st d).maxId = (renumberWith st.maxId d).maxId + 1 := by
  simp [collectStep, collectEntry_fold]

lemma foldl_collectStep_pages (docs : List PdfDoc) (st : CollectState) :
    (docs.foldl collectStep st).pages = st.pages ++ pagesFlat st.maxId docs := by
  induction docs generalizing st with
  | nil => simp [pagesFlat]
  | cons d rest ih =>
    simp only [List.foldl_cons, pagesFlat]
    rw [ih, collectStep_pages, collectStep_maxId, List.append_assoc]

lemma collectedPages_eq_pagesFlat (docs : List PdfDoc) :
    collectedPages docs = pagesFlat 1 docs := by
  simp [collectedPages, foldl_collectStep_pages, initCollect]

lemma pagesFlat_length (m : Nat) (docs : List PdfDoc) :
    (pagesFlat m docs).length
      = (docs.map (fun d => d.objects.countP (isRole "Page"))).sum := by
  induction docs generalizing m with
  | nil => simp [pagesFlat]
  | cons d rest ih =>
    simp only [pagesFlat, List.length_append, List.map_cons, List.sum_cons]
    rw [ih, ← List.countP_eq_length_filter, countP_renumberWith]

/-! ## Folded insertion lemmas -/

lemma eq_of_mem_of_nodup_keys (l : List (Nat × Obj))
    (hnd : (l.map Prod.fst).Nodup) (e1 e2 : Nat × Obj)
    (h1 : e1 ∈ l) (h2 : e2 ∈ l) (hk : e1.1 = e2.1) : e1 = e2 := by
  induction l with
  | nil => cases h1
  | cons hd tl ih =>
    simp only [List.map_cons, List.nodup_cons] at hnd
    obtain ⟨hhd, htl⟩ := hnd
    rcases List.mem_cons.mp h1 with h1 | h1 <;>
      rcases List.mem_cons.mp h2 with h2 | h2
    · rw [h1, h2]
    · exfalso
      apply hhd
      rw [← h1, hk]
      exact List.mem_map_of_mem Prod.fst h2
    · exfalso
      apply hhd
      rw [← h2, ← hk]
      exact List.mem_map_of_mem Prod.fst h1
    · exact ih htl h1 h2

lemma foldl_btreeInsert_keys (new os : List (Nat × Obj)) (j : Nat) :
    j ∈ ((new.foldl (fun os' e => btreeInsert e.1 e.2 os') os).map Prod.fst)
      ↔ j ∈ os.map Prod.fst ∨ j ∈ new.map Prod.fst := by
  induction new generalizing os with
  | nil => simp
  | cons e rest ih =>
    simp only [List.foldl_cons, ih, keys_btreeInsert, List.map_cons,
      List.mem_cons]
    tauto

lemma foldl_btreeInsert_sorted (new os : List (Nat × Obj))
    (hs : (os.map Prod.fst).Pairwise (· < ·)) :
    (((new.foldl (fun os' e => btreeInsert e.1 e.2 os') os)).map
      Prod.fst).Pairwise (· < ·) := by
  induction new generalizing os with
  | nil => exact hs
  | cons e rest ih => exact ih _ (btreeInsert_sorted _ _ _ hs)

lemma foldl_btreeInsert_mem (new os : List (Nat × Obj)) (e : Nat × Obj)
    (he : e ∈ new.foldl (fun os' e' => btreeInsert e'.1 e'.2 os') os) :
    e ∈ os ∨ e ∈ new := by
  induction new generalizing os with
  | nil => exact Or.inl he
  | cons hd rest ih =>
    rcases ih _ he with h | h
    · rcases mem_btreeInsert _ _ _ _ h with h' | h'
      · exact Or.inr (h' ▸ List.mem_cons_self _ _)
      · exact Or.inl h'
    · exact Or.inr (List.mem_cons_of_mem _ h)

lemma foldl_btreeInsert_countP (new os : List (Nat × Obj))
    (p : Nat × Obj → Bool)
    (hfresh : ∀ j ∈ new.map Prod.fst, j ∉ os.map Prod.fst)
    (hnd : (new.map Prod.fst).Nodup) :
    (new.foldl (fun os' e => btreeInsert e.1 e.2 os') os).countP p
      = os.countP p + new.countP p := by
  induction new generalizing os with
  | nil => simp
  | cons e rest ih =>
    simp only [List.map_cons, List.nodup_cons] at hnd
    obtain ⟨hnd1, hnd2⟩ := hnd
    simp only [List.foldl_cons]
    have hfr : e.1 ∉ os.map Prod.fst :=
      hfresh e.1 (List.mem_cons_self _ _)
    have hfresh' : ∀ j ∈ rest.map Prod.fst,
        j ∉ (btreeInsert e.1 e.2 os).map Prod.fst := by
      intro j hj hmem
      rcases (keys_btreeInsert e.1 e.2 os j).mp hmem with h | h
      · exact hnd1 (h ▸ hj)
      · exact hfresh j (List.mem_cons_of_mem _ hj) h
    rw [ih _ hfresh' hnd2,
      countP_btreeInsert_fresh e.1 e.2 os p hfr, List.countP_cons]
    have : p (e.1, e.2) = p e := by rfl
    rw [this]
    omega

lemma foldl_btreeInsert_lookup_not_mem (new os : List (Nat × Obj)) (j : Nat)
    (h : j ∉ new.map Prod.fst) :
    (new.foldl (fun os' e => btreeInsert e.1 e.2 os') os).lookup j
      = os.lookup j := by
  induction new generalizing os with
  | nil => rfl
  | cons e rest ih =>
    simp only [List.map_cons, List.mem_cons] at h
    push_neg at h
    simp only [List.foldl_cons]
    rw [ih _ h.2, lookup_btreeInsert_ne _ _ _ _ h.1]

lemma foldl_btreeInsert_lookup_mem (new os : List (Nat × Obj))
    (hnd : (new.map Prod.fst).Nodup) (e : Nat × Obj) (he : e ∈ new) :
    (new.foldl (fun os' e' => btreeInsert e'.1 e'.2 os') os).lookup e.1
      = some e.2 := by
  induction new generalizing os with
  | nil => cases he
  | cons hd rest ih =>
    simp only [List.map_cons, List.nodup_cons] at hnd
    obtain ⟨hnd1, hnd2⟩ := hnd
    simp only [List.foldl_cons]
    rcases List.mem_cons.mp he with he | he
    · subst he
      rw [foldl_btreeInsert_lookup_not_mem _ _ _ hnd1,
        lookup_btreeInsert_self]
    · exact ih _ hnd2 he

/-! ## The collection-loop invariant -/

lemma collectInv_init : CollectInv initCollect := by
  constructor <;> simp [initCollect]

lemma collectInv_step (st : CollectState) (d : PdfDoc)
    (hst : CollectInv st) (hwf : WFDoc d) :
    CollectInv (collectStep st d) := by
  obtain ⟨hdSorted, hdWF⟩ := hwf
  have hkeysR : (renumberWith st.maxId d).objects.map Prod.fst
      = List.range' st.maxId d.objects.length :=
    keys_renumberWith _ _ hdSorted
  have hRsorted : ((renumberWith st.maxId d).objects.map
      Prod.fst).Pairwise (· < ·) := by
    rw [hkeysR]
    exact List.pairwise_lt_range' _ _
  have hRndKeys : ((renumberWith st.maxId d).objects.map Prod.fst).Nodup :=
    hRsorted.imp (fun h => ne_of_lt h)
  have hkeyb : ∀ j ∈ (renumberWith st.maxId d).objects.map Prod.fst,
      st.maxId ≤ j ∧ j < st.maxId + d.objects.length := by
    intro j hj
    rw [hkeysR] at hj
    exact List.mem_range'_1.mp hj
  have hRbound : ∀ e ∈ (renumberWith st.maxId d).objects,
      st.maxId ≤ e.1 ∧ e.1 < st.maxId + d.objects.length := by
    intro e he
    exact hkeyb e.1 (List.mem_map_of_mem Prod.fst he)
  have hRwf : ∀ e ∈ (renumberWith st.maxId d).objects, WFObj e.2 := by
    intro e he
    simp only [renumberWith, List.mem_map] at he
    obtain ⟨e0, he0, heq⟩ := he
    rw [← heq]
    exact wfobj_mapObjRefs _ _ (hdWF e0 he0)
  have hmax' : (collectStep st d).maxId = st.maxId + d.objects.length := by
    rw [collectStep_maxId, maxId_renumberWith]
    have := hst.one_le
    omega
  have hPmem : ∀ e ∈ (renumberWith st.maxId d).objects.filter
      (isRole "Page"), e ∈ (renumberWith st.maxId d).objects ∧
        typeName e.2 = "Page" := by
    intro e he
    obtain ⟨h1, h2⟩ := List.mem_filter.mp he
    exact ⟨h1, by simpa [isRole] using h2⟩
  have hNPmem : ∀ e ∈ (renumberWith st.maxId d).objects.filter
      (fun e => !(isRole "Page" e)),
      e ∈ (renumberWith st.maxId d).objects ∧ typeName e.2 ≠ "Page" := by
    intro e he
    obtain ⟨h1, h2⟩ := List.mem_filter.mp he
    refine ⟨h1, ?_⟩
    simp only [Bool.not_eq_eq_eq_not, Bool.not_true] at h2
    simpa [isRole] using h2
  have hPkeys : ∀ j ∈ ((renumberWith st.maxId d).objects.filter
        (isRole "Page")).map Prod.fst,
      st.maxId ≤ j ∧ j < st.maxId + d.objects.length := by
    intro j hj
    exact hkeyb j
      (((List.filter_sublist _).map Prod.fst).subset hj)
  have hNPkeys : ∀ j ∈ ((renumberWith st.maxId d).objects.filter
        (fun e => !(isRole "Page" e))).map Prod.fst,
      st.maxId ≤ j ∧ j < st.maxId + d.objects.length := by
    intro j hj
    exact hkeyb j
      (((List.filter_sublist _).map Prod.fst).subset hj)
  have hPNP : ∀ j ∈ ((renumberWith st.maxId d).objects.filter
        (isRole "Page")).map Prod.fst,
      j ∉ ((renumberWith st.maxId d).objects.filter
        (fun e => !(isRole "Page" e))).map Prod.fst := by
    intro j hjP hjNP
    obtain ⟨e1, he1, hk1⟩ := List.mem_map.mp hjP
    obtain ⟨e2, he2, hk2⟩ := List.mem_map.mp hjNP
    obtain ⟨he1R, ht1⟩ := hPmem e1 he1
    obtain ⟨he2R, ht2⟩ := hNPmem e2 he2
    have : e1 = e2 :=
      eq_of_mem_of_nodup_keys _ hRndKeys e1 e2 he1R he2R (by rw [hk1, hk2])
    rw [this] at ht1
    exact ht2 ht1
  constructor
  · -- pagesLT
    rw [collectStep_pages, hmax']
    intro e he
    rcases List.mem_append.mp he with he | he
    · have := hst.pagesLT e he
      omega
    · exact ((hPmem e he).1 |> hRbound e).2
  · -- objsLT
    rw [collectStep_objects, hmax']
    intro e he
    rcases foldl_btreeInsert_mem _ _ _ he with he | he
    · have := hst.objsLT e he
      omega
    · exact (hRbound e (hNPmem e he).1).2
  · -- pagesSorted
    rw [collectStep_pages, List.map_append, List.pairwise_append]
    refine ⟨hst.pagesSorted, ?_, ?_⟩
    · exact hRsorted.sublist ((List.filter_sublist _).map Prod.fst)
    · intro a ha b hb
      obtain ⟨ea, hea, hka⟩ := List.mem_map.mp ha
      have hlt := hst.pagesLT ea hea
      have := (hPkeys b hb).1
      omega
  · -- objsSorted
    rw [collectStep_objects]
    exact foldl_btreeInsert_sorted _ _ hst.objsSorted
  · -- disj
    rw [collectStep_pages, collectStep_objects]
    intro j hj hmem
    rcases (foldl_btreeInsert_keys _ _ _).mp hmem with hos | hnp
    · obtain ⟨ea, hea, hka⟩ := List.mem_map.mp hos
      have hoslt := hst.objsLT ea hea
      rw [List.map_append] at hj
      rcases List.mem_append.mp hj with hj | hj
      · exact hst.disj j hj hos
      · have := (hPkeys j hj).1
        omega
    · rw [List.map_append] at hj
      rcases List.mem_append.mp hj with hj | hj
      · obtain ⟨ea, hea, hka⟩ := List.mem_map.mp hj
        have := hst.pagesLT ea hea
        have := (hNPkeys j hnp).1
        omega
      · exact hPNP j hj hnp
  · -- objsRoles
    rw [collectStep_objects]
    intro e he
    rcases foldl_btreeInsert_mem _ _ _ he with he | he
    · exact hst.objsRoles e he
    · exact (hNPmem e he).2
  · -- pagesRole
    rw [collectStep_pages]
    intro e he
    rcases List.mem_append.mp he with he | he
    · exact hst.pagesRole e he
    · exact (hPmem e he).2
  · -- pagesWF
    rw [collectStep_pages]
    intro e he
    rcases List.mem_append.mp he with he | he
    · exact hst.pagesWF e he
    · exact hRwf e (hPmem e he).1
  · -- objsWF
    rw [collectStep_objects]
    intro e he
    rcases foldl_btreeInsert_mem _ _ _ he with he | he
    · exact hst.objsWF e he
    · exact hRwf e (hNPmem e he).1
  · -- one_le
    rw [hmax']
    have := hst.one_le
    omega

lemma collectInv_foldl (docs : List PdfDoc) (st : CollectState)
    (hst : CollectInv st) (hwf : ∀ d ∈ docs, WFDoc d) :
    CollectInv (docs.foldl collectStep st) := by
  induction docs generalizing st with
  | nil => exact hst
  | cons d rest ih =>
    exact ih _ (collectInv_step st d hst (hwf d (List.mem_cons_self _ _)))
      (fun d' hd' => hwf d' (List.mem_cons_of_mem _ hd'))

/-! ## Role-routing lemmas -/

lemma obj_dict_of_typeName (o : Obj) (r : String) (h : typeName o = r)
    (hr : r ≠ "") : ∃ d, o = .dict d := by
  cases o with
  | dict d => exact ⟨d, rfl⟩
  | nondict =>
    simp only [typeName] at h
    exact absurd h.symm hr

lemma routeEntry_catalogObject (st : RouteState) (e : Nat × Obj) :
    (routeEntry st e).catalogObject =
      if typeName e.2 = "Catalog" ∧ st.catalogObject.isNone
      then some e else st.catalogObject := by
  by_cases h1 : typeName e.2 = "Catalog"
  · by_cases h2 : st.catalogObject.isNone <;> simp [routeEntry, h1, h2]
  · by_cases h2 : typeName e.2 = "Pages"
    · cases hda : e.2.asDict <;> simp [routeEntry, h1, h2, hda]
    · by_cases h3 : typeName e.2 = "Outlines" ∨ typeName e.2 = "Outline" <;>
        simp [routeEntry, h1, h2, h3]

lemma routeEntry_pagesObject_ne (st : RouteState) (e : Nat × Obj)
    (h : typeName e.2 ≠ "Pages") :
    (routeEntry st e).pagesObject = st.pagesObject := by
  by_cases h1 : typeName e.2 = "Catalog"
  · by_cases h2 : st.catalogObject.isNone <;> simp [routeEntry, h1, h2]
  · by_cases h3 : typeName e.2 = "Outlines" ∨ typeName e.2 = "Outline" <;>
      simp [routeEntry, h1, h, h3]

lemma routeEntry_pages (st : RouteState) (e : Nat × Obj) (d : Dict)
    (ht : typeName e.2 = "Pages") (hd : e.2 = .dict d) :
    routeEntry st e = { st with pagesObject := some (e.1, .dict (
      match st.pagesObject with
      | some q =>
        match q.2.asDict with
        | some oldD => dictExtend d oldD
        | none => d
      | none => d)) } := by
  have hc : typeName e.2 ≠ "Catalog" := by rw [ht]; simp
  have htd : typeName (Obj.dict d) = "Pages" := hd ▸ ht
  have hcd : typeName (Obj.dict d) ≠ "Catalog" := hd ▸ hc
  simp [routeEntry, hd, htd, hcd, Obj.asDict]

lemma routeEntry_objects_cases (st : RouteState) (e : Nat × Obj) :
    (routeEntry st e).objects = st.objects ∨
    ((routeEntry st e).objects = btreeInsert e.1 e.2 st.objects ∧
      typeName e.2 ≠ "Catalog" ∧ typeName e.2 ≠ "Pages" ∧
      typeName e.2 ≠ "Outlines" ∧ typeName e.2 ≠ "Outline") := by
  by_cases h1 : typeName e.2 = "Catalog"
  · left
    by_cases h2 : st.catalogObject.isNone <;> simp [routeEntry, h1, h2]
  · by_cases h2 : typeName e.2 = "Pages"
    · left
      cases hda : e.2.asDict <;> simp [routeEntry, h1, h2, hda]
    · by_cases h3 : typeName e.2 = "Outlines" ∨ typeName e.2 = "Outline"
      · left
        simp [routeEntry, h1, h2, h3]
      · right
        push_neg at h3
        exact ⟨by simp [routeEntry, h1, h2, h3], h1, h2, h3.1, h3.2⟩

lemma routeFold_objects_mem (objs : List (Nat × Obj)) (st : RouteState)
    (e : Nat × Obj) (he : e ∈ (objs.foldl routeEntry st).objects) :
    e ∈ st.objects ∨
      (e ∈ objs ∧ typeName e.2 ≠ "Catalog" ∧ typeName e.2 ≠ "Pages" ∧
        typeName e.2 ≠ "Outlines" ∧ typeName e.2 ≠ "Outline") := by
  induction objs generalizing st with
  | nil => exact Or.inl he
  | cons e0 rest ih =>
    rcases ih (routeEntry st e0) he with h | h
    · rcases routeEntry_objects_cases st e0 with hc | ⟨hc, hprops⟩
      · rw [hc] at h
        exact Or.inl h
      · rw [hc] at h
        rcases mem_btreeInsert _ _ _ _ h with h' | h'
        · refine Or.inr ⟨h' ▸ List.mem_cons_self _ _, ?_⟩
          rw [h']
          exact hprops
        · exact Or.inl h'
    · exact Or.inr ⟨List.mem_cons_of_mem _ h.1, h.2⟩

lemma routeFold_objects_sorted (objs : List (Nat × Obj)) (st : RouteState)
    (h : (st.objects.map Prod.fst).Pairwise (· < ·)) :
    (((objs.foldl routeEntry st).objects).map Prod.fst).Pairwise (· < ·) := by
  induction objs generalizing st with
  | nil => exact h
  | cons e0 rest ih =>
    apply ih
    rcases routeEntry_objects_cases st e0 with hc | ⟨hc, _⟩
    · rw [hc]
      exact h
    · rw [hc]
      exact btreeInsert_sorted _ _ _ h

lemma routeFold_catalog (objs : List (Nat × Obj)) (st : RouteState) :
    (objs.foldl routeEntry st).catalogObject
      = st.catalogObject.or (objs.find? (isRole "Catalog")) := by
  induction objs generalizing st with
  | nil => simp [Option.or_none]
  | cons e rest ih =>
    rw [List.foldl_cons, ih]
    by_cases h : isRole "Catalog" e
    · have ht : typeName e.2 = "Catalog" := by simpa [isRole] using h
      rw [List.find?_cons_of_pos _ h, routeEntry_catalogObject]
      by_cases h2 : st.catalogObject.isNone
      · rw [Option.isNone_iff_eq_none] at h2
        simp [ht, h2, Option.or]
      · rcases hc : st.catalogObject with _ | c
        · rw [hc] at h2
          simp at h2
        · simp [ht, hc, Option.or]
    · have ht : typeName e.2 ≠ "Catalog" := by simpa [isRole] using h
      rw [List.find?_cons_of_neg _ h, routeEntry_catalogObject]
      simp [ht]

lemma routeFold_pagesId (objs : List (Nat × Obj)) (st : RouteState) :
    ((objs.foldl routeEntry st).pagesObject).map Prod.fst
      = ((objs.reverse.find? (isRole "Pages")).map Prod.fst).or
          ((st.pagesObject).map Prod.fst) := by
  induction objs generalizing st with
  | nil => simp [Option.none_or]
  | cons e rest ih =>
    rw [List.foldl_cons, ih, List.reverse_cons, List.find?_append,
      List.find?_singleton]
    by_cases h : isRole "Pages" e
    · have ht : typeName e.2 = "Pages" := by simpa [isRole] using h
      obtain ⟨d, hd⟩ := obj_dict_of_typeName e.2 "Pages" ht (by simp)
      rw [routeEntry_pages st e d ht hd]
      simp only [if_pos h]
      cases hf : rest.reverse.find? (isRole "Pages") with
      | none => simp [Option.or]
      | some q => simp [Option.or]
    · have ht : typeName e.2 ≠ "Pages" := by simpa [isRole] using h
      rw [routeEntry_pagesObject_ne st e ht]
      simp only [if_neg h]
      cases hf : rest.reverse.find? (isRole "Pages") with
      | none => simp [Option.or]
      | some q => simp [Option.or]

lemma typeName_dict_get (d : Dict) (r : String)
    (h : typeName (.dict d) = r) (hr : r ≠ "") :
    dictGet "Type" d = some (.name r) := by
  simp only [typeName] at h
  cases hget : dictGet "Type" d with
  | none =>
    rw [hget] at h
    exact absurd h.symm hr
  | some v =>
    rw [hget] at h
    cases v with
    | name s =>
      have hs : s = r := h
      rw [hs]
    | ref i =>
      have h' : "" = r := h
      exact absurd h'.symm hr
    | int n =>
      have h' : "" = r := h
      exact absurd h'.symm hr
    | str s =>
      have h' : "" = r := h
      exact absurd h'.symm hr
    | array xs =>
      have h' : "" = r := h
      exact absurd h'.symm hr

lemma dictSupersetOf_refl (d : Dict) : dictSupersetOf d d := fun _ h => h

lemma dictSupersetOf_trans {a b c : Dict} (h1 : dictSupersetOf a b)
    (h2 : dictSupersetOf b c) : dictSupersetOf a c :=
  fun k hk => h1 k (h2 k hk)

lemma routeEntry_pages_none (st : RouteState) (e : Nat × Obj) (d : Dict)
    (ht : typeName e.2 = "Pages") (hd : e.2 = .dict d)
    (h0 : st.pagesObject = none) :
    routeEntry st e = { st with pagesObject := some (e.1, .dict d) } := by
  rw [routeEntry_pages st e d ht hd]
  simp only [h0]

lemma routeEntry_pages_some (st : RouteState) (e : Nat × Obj) (d : Dict)
    (q0 : Nat × Obj) (oldD : Dict)
    (ht : typeName e.2 = "Pages") (hd : e.2 = .dict d)
    (h0 : st.pagesObject = some q0) (hq0d : q0.2 = .dict oldD) :
    routeEntry st e
      = { st with pagesObject := some (e.1, .dict (dictExtend d oldD)) } := by
  rw [routeEntry_pages st e d ht hd]
  simp only [h0, hq0d, Obj.asDict]

lemma routeFold_pages_accum (objs : List (Nat × Obj)) (st : RouteState)
    (hwf : ∀ e ∈ objs, WFObj e.2) (hst : PagesCanonWF st) :
    PagesCanonWF (objs.foldl routeEntry st) ∧
    (∀ q0, st.pagesObject = some q0 → ∀ d0, q0.2 = .dict d0 →
      ∀ q, (objs.foldl routeEntry st).pagesObject = some q →
        ∃ dq, q.2 = .dict dq ∧ dictSupersetOf dq d0) ∧
    (∀ e ∈ objs, isRole "Pages" e = true →
      ∀ q, (objs.foldl routeEntry st).pagesObject = some q →
        ∀ de, e.2 = .dict de → ∃ dq, q.2 = .dict dq ∧ dictSupersetOf dq de) := by
  induction objs generalizing st with
  | nil =>
    refine ⟨hst, ?_, ?_⟩
    · intro q0 h0 d0 hd0 q hq
      simp only [List.foldl_nil] at hq
      rw [h0] at hq
      cases hq
      exact ⟨d0, hd0, dictSupersetOf_refl d0⟩
    · intro e he
      cases he
  | cons e rest ih =>
    have hwfe : WFObj e.2 := hwf e (List.mem_cons_self _ _)
    have hwf' : ∀ e' ∈ rest, WFObj e'.2 :=
      fun e' h => hwf e' (List.mem_cons_of_mem _ h)
    by_cases hp : isRole "Pages" e
    · -- a Pages instance: the candidate is replaced by the extended dictionary
      have ht : typeName e.2 = "Pages" := by simpa [isRole] using hp
      obtain ⟨de0, hde0⟩ := obj_dict_of_typeName e.2 "Pages" ht (by simp)
      have hde0nd : (de0.map Prod.fst).Nodup := by
        rw [hde0] at hwfe
        exact hwfe
      have hde0ty : dictGet "Type" de0 = some (.name "Pages") :=
        typeName_dict_get de0 "Pages" (hde0 ▸ ht) (by simp)
      rcases hq0 : st.pagesObject with _ | q0
      · -- no previous candidate: the new dictionary is taken as-is
        rw [List.foldl_cons, routeEntry_pages_none st e de0 ht hde0 hq0]
        have hst' : PagesCanonWF
            { st with pagesObject := some (e.1, .dict de0) } := by
          intro q hq
          have hq2 : some (e.1, Obj.dict de0) = some q := hq
          cases hq2
          exact ⟨de0, rfl, hde0nd, hde0ty⟩
        obtain ⟨ihwf, ihmono, ihcov⟩ := ih _ hwf' hst'
        refine ⟨ihwf, ?_, ?_⟩
        · intro q0' h0'
          cases h0'
        · intro e' he' hp' q hq de' hde'
          rcases List.mem_cons.mp he' with he' | he'
          · have hdeq : de' = de0 := by
              rw [he', hde0] at hde'
              cases hde'
              rfl
            rw [hdeq]
            exact ihmono (e.1, .dict de0) rfl de0 rfl q hq
          · exact ihcov e' he' hp' q hq de' hde'
      · -- a previous candidate q0 exists: extend with its dictionary
        obtain ⟨d0, hd0, hd0nd, hd0ty⟩ := hst q0 hq0
        rw [List.foldl_cons, routeEntry_pages_some st e de0 q0 d0 ht hde0 hq0 hd0]
        have hnewnd : ((dictExtend de0 d0).map Prod.fst).Nodup :=
          nodup_dictExtend de0 d0 hde0nd
        have hnewty : dictGet "Type" (dictExtend de0 d0)
            = some (.name "Pages") :=
          dictGet_dictExtend_mem de0 d0 "Type" _ hd0nd hd0ty
        have hst' : PagesCanonWF
            { st with pagesObject := some (e.1, .dict (dictExtend de0 d0)) } := by
          intro q hq
          have hq2 : some (e.1, Obj.dict (dictExtend de0 d0)) = some q := hq
          cases hq2
          exact ⟨dictExtend de0 d0, rfl, hnewnd, hnewty⟩
        obtain ⟨ihwf, ihmono, ihcov⟩ := ih _ hwf' hst'
        have hmonoNew : ∀ q, (rest.foldl routeEntry
            { st with pagesObject := some (e.1, .dict (dictExtend de0 d0)) }).pagesObject
              = some q →
            ∃ dq, q.2 = .dict dq ∧ dictSupersetOf dq (dictExtend de0 d0) :=
          fun q hq => ihmono (e.1, .dict (dictExtend de0 d0)) rfl _ rfl q hq
        refine ⟨ihwf, ?_, ?_⟩
        · intro q0' h0' d0' hd0' q hq
          have hq0' : q0' = q0 := by
            cases h0'
            rfl
          subst hq0'
          have hd0eq : d0' = d0 := by
            rw [hd0] at hd0'
            cases hd0'
            rfl
          subst hd0eq
          obtain ⟨dq, hdq, hsup⟩ := hmonoNew q hq
          refine ⟨dq, hdq, dictSupersetOf_trans hsup ?_⟩
          intro k hk
          rw [isSome_dictGet_dictExtend]
          exact Or.inr hk
        · intro e' he' hp' q hq de' hde'
          rcases List.mem_cons.mp he' with he' | he'
          · have hde'eq : de' = de0 := by
              rw [he', hde0] at hde'
              cases hde'
              rfl
            rw [hde'eq]
            obtain ⟨dq, hdq, hsup⟩ := hmonoNew q hq
            refine ⟨dq, hdq, dictSupersetOf_trans hsup ?_⟩
            intro k hk
            rw [isSome_dictGet_dictExtend]
            exact Or.inl hk
          · exact ihcov e' he' hp' q hq de' hde'
    · -- not a Pages instance: the candidate is unchanged
      have ht : typeName e.2 ≠ "Pages" := by simpa [isRole] using hp
      have hpe : (routeEntry st e).pagesObject = st.pagesObject :=
        routeEntry_pagesObject_ne st e ht
      have hst' : PagesCanonWF (routeEntry st e) := by
        intro q hq
        rw [hpe] at hq
        exact hst q hq
      rw [List.foldl_cons]
      obtain ⟨ihwf, ihmono, ihcov⟩ := ih _ hwf' hst'
      refine ⟨ihwf, ?_, ?_⟩
      · intro q0 h0 d0 hd0 q hq
        exact ihmono q0 (by rw [hpe, h0]) d0 hd0 q hq
      · intro e' he' hp' q hq de' hde'
        rcases List.mem_cons.mp he' with he' | he'
        · subst he'
          exact absurd hp' (by simpa using hp)
        · exact ihcov e' he' hp' q hq de' hde'

/-! ## Assembly lemmas -/

lemma typeName_setParent (pid : Nat) (o : Obj) :
    typeName (setParent pid o) = typeName o := by
  cases o with
  | nondict => rfl
  | dict d =>
    simp only [setParent, typeName]
    rw [dictGet_dictSet_ne _ _ _ _ (by decide)]

lemma pageInsert_fold_eq (pid : Nat) (pages : List (Nat × Obj))
    (acc : List (Nat × Obj))
    (hp : ∀ e ∈ pages, ∃ d, e.2 = Obj.dict d) :
    pages.foldl (fun acc' e =>
      match e.2.asDict with
      | some d => btreeInsert e.1 (.dict (dictSet "Parent" (.ref pid) d)) acc'
      | none => acc') acc
    = (pages.map (fun e => (e.1, setParent pid e.2))).foldl
        (fun os' e => btreeInsert e.1 e.2 os') acc := by
  induction pages generalizing acc with
  | nil => rfl
  | cons e rest ih =>
    obtain ⟨d, hd⟩ := hp e (List.mem_cons_self _ _)
    simp only [List.foldl_cons, List.map_cons, hd, Obj.asDict, setParent]
    exact ih _ (fun e' h => hp e' (List.mem_cons_of_mem _ h))

lemma pagesCanonWF_init : PagesCanonWF initRoute := by
  intro q hq
  cases hq

/-- Anatomy of a successful merge: the canonical Pages-root and Catalog
candidates exist, are well-formed dictionaries of the right roles, the
Pages-root id comes from a `Pages`-typed entry of the merged table, the
Catalog is the first `Catalog`-typed entry, and the output object table
is exactly the routed table with the parent-rewritten pages, the updated
Pages-root and the updated Catalog inserted. -/
lemma mergePdfFiles_ok_anatomy (load : List String → Option PdfDoc)
    (files : List (List String)) (docs : List PdfDoc) (out : MergedDoc)
    (hwf : ∀ d ∈ docs, WFDoc d)
    (hload : files.mapM load = some docs)
    (hok : mergePdfFiles load files = .ok out) :
    ∃ pq cq dq dcq,
      ((docs.foldl collectStep initCollect).objects.foldl routeEntry
        initRoute).pagesObject = some pq ∧
      ((docs.foldl collectStep initCollect).objects.foldl routeEntry
        initRoute).catalogObject = some cq ∧
      pq.2 = .dict dq ∧ (dq.map Prod.fst).Nodup ∧
      dictGet "Type" dq = some (.name "Pages") ∧
      cq.2 = .dict dcq ∧ dictGet "Type" dcq = some (.name "Catalog") ∧
      (∃ e ∈ (docs.foldl collectStep initCollect).objects,
        isRole "Pages" e = true ∧ e.1 = pq.1) ∧
      (docs.foldl collectStep initCollect).objects.find? (isRole "Catalog")
        = some cq ∧
      out.pageId = pq.1 ∧ out.catalogId = cq.1 ∧ out.trailerRoot = cq.1 ∧
      out.objects =
        btreeInsert cq.1
          (.dict (dictRemove "Outlines" (dictSet "Pages" (.ref pq.1) dcq)))
          (btreeInsert pq.1
            (.dict (dictSet "Kids"
              (.array ((docs.foldl collectStep initCollect).pages.map
                (fun e => Val.ref e.1)))
              (dictSet "Count"
                (.int (docs.foldl collectStep initCollect).pages.length) dq)))
            (((docs.foldl collectStep initCollect).pages.map
              (fun e => (e.1, setParent pq.1 e.2))).foldl
                (fun os' e => btreeInsert e.1 e.2 os')
                ((docs.foldl collectStep initCollect).objects.foldl
                  routeEntry initRoute).objects)) := by
  have hinv : CollectInv (docs.foldl collectStep initCollect) :=
    collectInv_foldl docs initCollect collectInv_init hwf
  have hco : collectDocs load files initCollect
      = .ok (docs.foldl collectStep initCollect) := by
    rw [collectDocs_eq, hload]
  rcases files with _ | ⟨f, fs⟩
  · simp only [mergePdfFiles, List.isEmpty_nil, if_true] at hok
    cases hok
  simp only [mergePdfFiles, List.isEmpty_cons, Bool.false_eq_true,
    if_false, hco] at hok
  by_cases hpe : (docs.foldl collectStep initCollect).pages.isEmpty
  · rw [if_pos hpe] at hok
    cases hok
  rw [if_neg hpe] at hok
  rcases hpq : ((docs.foldl collectStep initCollect).objects.foldl
      routeEntry initRoute).pagesObject with _ | pq
  · simp only [assembleDoc, hpq] at hok
    cases hok
  rcases hcq : ((docs.foldl collectStep initCollect).objects.foldl
      routeEntry initRoute).catalogObject with _ | cq
  · simp only [assembleDoc, hpq, hcq] at hok
    cases hok
  obtain ⟨dq, hdq, hdqnd, hdqty⟩ :=
    (routeFold_pages_accum (docs.foldl collectStep initCollect).objects
      initRoute hinv.objsWF pagesCanonWF_init).1 pq hpq
  have hcqfind : (docs.foldl collectStep initCollect).objects.find?
      (isRole "Catalog") = some cq := by
    have h := routeFold_catalog
      (docs.foldl collectStep initCollect).objects initRoute
    rw [hcq] at h
    simpa [initRoute, Option.none_or] using h.symm
  have hcqrole : isRole "Catalog" cq = true := List.find?_some hcqfind
  have hcqty : typeName cq.2 = "Catalog" := by simpa [isRole] using hcqrole
  obtain ⟨dcq, hdcq⟩ := obj_dict_of_typeName cq.2 "Catalog" hcqty (by simp)
  have hdcqty : dictGet "Type" dcq = some (.name "Catalog") :=
    typeName_dict_get dcq "Catalog" (hdcq ▸ hcqty) (by simp)
  have hepq : ∃ e ∈ (docs.foldl collectStep initCollect).objects,
      isRole "Pages" e = true ∧ e.1 = pq.1 := by
    have h := routeFold_pagesId
      (docs.foldl collectStep initCollect).objects initRoute
    rw [hpq] at h
    simp only [initRoute, Option.map_some', Option.map_none',
      Option.or_none] at h
    cases hf : (docs.foldl collectStep
        initCollect).objects.reverse.find? (isRole "Pages") with
    | none =>
      rw [hf] at h
      cases h
    | some epq =>
      rw [hf] at h
      simp only [Option.map_some'] at h
      refine ⟨epq, ?_, List.find?_some hf, ?_⟩
      · exact List.mem_reverse.mp (List.mem_of_find?_eq_some hf)
      · exact (Option.some.inj h).symm
  have hpagesdict : ∀ e ∈ (docs.foldl collectStep initCollect).pages,
      ∃ d, e.2 = Obj.dict d := by
    intro e he
    exact obj_dict_of_typeName e.2 "Page" (hinv.pagesRole e he) (by simp)
  have hpqd : pq.2.asDict = some dq := by rw [hdq]; rfl
  have hcqd : cq.2.asDict = some dcq := by rw [hdcq]; rfl
  simp only [assembleDoc, hpq, hcq, hpqd, hcqd] at hok
  rw [pageInsert_fold_eq pq.1 _ _ hpagesdict] at hok
  cases hok
  exact ⟨pq, cq, dq, dcq, rfl, rfl, hdq, hdqnd, hdqty, hdcq, hdcqty,
    hepq, hcqfind, rfl, rfl, rfl, rfl⟩

lemma countP_assembled (rtObjs TP : List (Nat × Obj)) (pid cid : Nat)
    (po co : Obj) (p : Nat × Obj → Bool)
    (hTPfresh : ∀ j ∈ TP.map Prod.fst, j ∉ rtObjs.map Prod.fst)
    (hTPnd : (TP.map Prod.fst).Nodup)
    (hpid1 : pid ∉ rtObjs.map Prod.fst) (hpid2 : pid ∉ TP.map Prod.fst)
    (hcid1 : cid ∉ rtObjs.map Prod.fst) (hcid2 : cid ∉ TP.map Prod.fst)
    (hcp : cid ≠ pid) :
    (btreeInsert cid co (btreeInsert pid po
      (TP.foldl (fun os' e => btreeInsert e.1 e.2 os') rtObjs))).countP p
    = rtObjs.countP p + TP.countP p
      + (if p (pid, po) then 1 else 0) + (if p (cid, co) then 1 else 0) := by
  have hpid3 : pid ∉ (TP.foldl (fun os' e => btreeInsert e.1 e.2 os')
      rtObjs).map Prod.fst := by
    intro h
    rcases (foldl_btreeInsert_keys _ _ _).mp h with h | h
    · exact hpid1 h
    · exact hpid2 h
  have hcid3 : cid ∉ (btreeInsert pid po
      (TP.foldl (fun os' e => btreeInsert e.1 e.2 os') rtObjs)).map
        Prod.fst := by
    intro h
    rcases (keys_btreeInsert _ _ _ _).mp h with h | h
    · exact hcp h
    · rcases (foldl_btreeInsert_keys _ _ _).mp h with h | h
      · exact hcid1 h
      · exact hcid2 h
  rw [countP_btreeInsert_fresh _ _ _ _ hcid3,
    countP_btreeInsert_fresh _ _ _ _ hpid3,
    foldl_btreeInsert_countP _ _ _ hTPfresh hTPnd]

lemma merge_fresh_facts (docs : List PdfDoc)
    (hinv : CollectInv (docs.foldl collectStep initCollect))
    (pid cid : Nat)
    (hepq : ∃ e ∈ (docs.foldl collectStep initCollect).objects,
      isRole "Pages" e = true ∧ e.1 = pid)
    (hecq : ∃ e ∈ (docs.foldl collectStep initCollect).objects,
      isRole "Catalog" e = true ∧ e.1 = cid) :
    (∀ e ∈ ((docs.foldl collectStep initCollect).objects.foldl routeEntry
        initRoute).objects,
      e ∈ (docs.foldl collectStep initCollect).objects ∧
        typeName e.2 ≠ "Catalog" ∧ typeName e.2 ≠ "Pages") ∧
    (∀ j ∈ (docs.foldl collectStep initCollect).pages.map Prod.fst,
      j ∉ ((docs.foldl collectStep initCollect).objects.foldl routeEntry
        initRoute).objects.map Prod.fst) ∧
    pid ∉ (docs.foldl collectStep initCollect).pages.map Prod.fst ∧
    pid ∉ ((docs.foldl collectStep initCollect).objects.foldl routeEntry
      initRoute).objects.map Prod.fst ∧
    cid ∉ (docs.foldl collectStep initCollect).pages.map Prod.fst ∧
    cid ∉ ((docs.foldl collectStep initCollect).objects.foldl routeEntry
      initRoute).objects.map Prod.fst ∧
    cid ≠ pid := by
  obtain ⟨epq, hepqMem, hepqRole, hepqKey⟩ := hepq
  obtain ⟨ecq, hecqMem, hecqRole, hecqKey⟩ := hecq
  have hepqTy : typeName epq.2 = "Pages" := by simpa [isRole] using hepqRole
  have hecqTy : typeName ecq.2 = "Catalog" := by simpa [isRole] using hecqRole
  have hndk : ((docs.foldl collectStep initCollect).objects.map
      Prod.fst).Nodup :=
    hinv.objsSorted.imp (fun h => ne_of_lt h)
  have hrtmem : ∀ e ∈ ((docs.foldl collectStep initCollect).objects.foldl
      routeEntry initRoute).objects,
      e ∈ (docs.foldl collectStep initCollect).objects ∧
        typeName e.2 ≠ "Catalog" ∧ typeName e.2 ≠ "Pages" := by
    intro e he
    rcases routeFold_objects_mem _ _ _ he with h | ⟨h1, h2, h3, _⟩
    · cases h
    · exact ⟨h1, h2, h3⟩
  have hrtsub : ∀ j ∈ ((docs.foldl collectStep initCollect).objects.foldl
      routeEntry initRoute).objects.map Prod.fst,
      j ∈ (docs.foldl collectStep initCollect).objects.map Prod.fst := by
    intro j hj
    obtain ⟨e, he, hk⟩ := List.mem_map.mp hj
    exact hk ▸ List.mem_map_of_mem Prod.fst (hrtmem e he).1
  have hpagesdisj : ∀ j ∈ (docs.foldl collectStep
      initCollect).pages.map Prod.fst,
      j ∉ ((docs.foldl collectStep initCollect).objects.foldl routeEntry
        initRoute).objects.map Prod.fst := by
    intro j hj hmem
    exact hinv.disj j hj (hrtsub j hmem)
  have hpidpages : pid ∉ (docs.foldl collectStep
      initCollect).pages.map Prod.fst := by
    intro h
    exact hinv.disj pid h (hepqKey ▸ List.mem_map_of_mem Prod.fst hepqMem)
  have hcidpages : cid ∉ (docs.foldl collectStep
      initCollect).pages.map Prod.fst := by
    intro h
    exact hinv.disj cid h (hecqKey ▸ List.mem_map_of_mem Prod.fst hecqMem)
  have hpidrt : pid ∉ ((docs.foldl collectStep initCollect).objects.foldl
      routeEntry initRoute).objects.map Prod.fst := by
    intro h
    obtain ⟨e2, he2, hk2⟩ := List.mem_map.mp h
    obtain ⟨he2m, _, he2p⟩ := hrtmem e2 he2
    have : epq = e2 :=
      eq_of_mem_of_nodup_keys _ hndk epq e2 hepqMem he2m
        (by rw [hepqKey, hk2])
    rw [this] at hepqTy
    exact he2p hepqTy
  have hcidrt : cid ∉ ((docs.foldl collectStep initCollect).objects.foldl
      routeEntry initRoute).objects.map Prod.fst := by
    intro h
    obtain ⟨e2, he2, hk2⟩ := List.mem_map.mp h
    obtain ⟨he2m, he2c, _⟩ := hrtmem e2 he2
    have : ecq = e2 :=
      eq_of_mem_of_nodup_keys _ hndk ecq e2 hecqMem he2m
        (by rw [hecqKey, hk2])
    rw [this] at hecqTy
    exact he2c hecqTy
  have hcpne : cid ≠ pid := by
    intro h
    have : ecq = epq :=
      eq_of_mem_of_nodup_keys _ hndk ecq epq hecqMem hepqMem
        (by rw [hecqKey, hepqKey, h])
    rw [this] at hecqTy
    rw [hepqTy] at hecqTy
    exact absurd hecqTy (by decide)
  exact ⟨hrtmem, hpagesdisj, hpidpages, hpidrt, hcidpages, hcidrt, hcpne⟩

/-! ## C1: merged page structure -/

/-- C1: for a successful merge of well-formed sources, the output object
table contains exactly the sum of the sources' `Page` objects; the pages
are collected source by source with intra-source table order preserved
(`pagesFlat`), the canonical Pages-root's `Kids` array lists exactly the
collected page ids in collected order, its `Count` is that list's length,
and every collected page is stored with its `Parent` rewritten to the
canonical Pages-root id. -/
theorem C1_merged_page_structure (load : List String → Option PdfDoc)
    (files : List (List String)) (docs : List PdfDoc) (out : MergedDoc)
    (hwf : ∀ d ∈ docs, WFDoc d)
    (hload : files.mapM load = some docs)
    (hok : mergePdfFiles load files = .ok out) :
    out.objects.countP (isRole "Page")
      = (docs.map (fun d => d.objects.countP (isRole "Page"))).sum ∧
    collectedPages docs = pagesFlat 1 docs ∧
    (∃ pd, out.objects.lookup out.pageId = some (.dict pd) ∧
      dictGet "Kids" pd
        = some (.array ((collectedPages docs).map (fun e => Val.ref e.1))) ∧
      dictGet "Count" pd = some (.int (collectedPages docs).length)) ∧
    (∀ e ∈ collectedPages docs, ∃ dd, e.2 = .dict dd ∧
      out.objects.lookup e.1
        = some (.dict (dictSet "Parent" (.ref out.pageId) dd))) := by
  have hinv : CollectInv (docs.foldl collectStep initCollect) :=
    collectInv_foldl docs initCollect collectInv_init hwf
  obtain ⟨pq, cq, dq, dcq, hpq, hcq, hdq, hdqnd, hdqty, hdcq, hdcqty,
    hepq, hcqfind, hpid, hcid, htr, hobjs⟩ :=
    mergePdfFiles_ok_anatomy load files docs out hwf hload hok
  have hecq : ∃ e ∈ (docs.foldl collectStep initCollect).objects,
      isRole "Catalog" e = true ∧ e.1 = cq.1 :=
    ⟨cq, List.mem_of_find?_eq_some hcqfind, List.find?_some hcqfind, rfl⟩
  obtain ⟨hrtmem, hpagesdisj, hpidpages, hpidrt, hcidpages, hcidrt, hcpne⟩ :=
    merge_fresh_facts docs hinv pq.1 cq.1 hepq hecq
  have hTPkeys : (((docs.foldl collectStep initCollect).pages.map
      (fun e => (e.1, setParent pq.1 e.2))).map Prod.fst)
      = (docs.foldl collectStep initCollect).pages.map Prod.fst := by
    simp [List.map_map, Function.comp]
  have hTPfresh : ∀ j ∈ ((docs.foldl collectStep initCollect).pages.map
      (fun e => (e.1, setParent pq.1 e.2))).map Prod.fst,
      j ∉ ((docs.foldl collectStep initCollect).objects.foldl routeEntry
        initRoute).objects.map Prod.fst := by
    rw [hTPkeys]
    exact hpagesdisj
  have hTPnd : (((docs.foldl collectStep initCollect).pages.map
      (fun e => (e.1, setParent pq.1 e.2))).map Prod.fst).Nodup := by
    rw [hTPkeys]
    exact hinv.pagesSorted.imp (fun h => ne_of_lt h)
  have hpid2 : pq.1 ∉ ((docs.foldl collectStep initCollect).pages.map
      (fun e => (e.1, setParent pq.1 e.2))).map Prod.fst := by
    rw [hTPkeys]
    exact hpidpages
  have hcid2 : cq.1 ∉ ((docs.foldl collectStep initCollect).pages.map
      (fun e => (e.1, setParent pq.1 e.2))).map Prod.fst := by
    rw [hTPkeys]
    exact hcidpages
  have hrootTy : typeName (.dict (dictSet "Kids"
      (.array ((docs.foldl collectStep initCollect).pages.map
        (fun e => Val.ref e.1)))
      (dictSet "Count" (.int (docs.foldl collectStep
        initCollect).pages.length) dq))) = "Pages" := by
    simp only [typeName]
    rw [dictGet_dictSet_ne _ _ _ _ (by decide),
      dictGet_dictSet_ne _ _ _ _ (by decide), hdqty]
  have hcatTy : typeName (.dict (dictRemove "Outlines"
      (dictSet "Pages" (.ref pq.1) dcq))) = "Catalog" := by
    simp only [typeName]
    rw [dictGet_dictRemove_ne _ _ _ (by decide),
      dictGet_dictSet_ne _ _ _ _ (by decide), hdcqty]
  refine ⟨?_, collectedPages_eq_pagesFlat docs, ?_, ?_⟩
  · -- total page count
    rw [hobjs, countP_assembled _ _ _ _ _ _ _ hTPfresh hTPnd hpidrt hpid2
      hcidrt hcid2 hcpne]
    have h0 : ((docs.foldl collectStep initCollect).objects.foldl
        routeEntry initRoute).objects.countP (isRole "Page") = 0 := by
      rw [List.countP_eq_zero]
      intro e he
      have hnp := hinv.objsRoles e (hrtmem e he).1
      simpa [isRole] using hnp
    have hTPc : ((docs.foldl collectStep initCollect).pages.map
        (fun e => (e.1, setParent pq.1 e.2))).countP (isRole "Page")
        = (docs.foldl collectStep initCollect).pages.length := by
      rw [List.countP_eq_length.mpr, List.length_map]
      intro a ha
      obtain ⟨e0, he0, hae⟩ := List.mem_map.mp ha
      rw [← hae]
      simp only [isRole, typeName_setParent]
      have := hinv.pagesRole e0 he0
      simp [this]
    have hroot0 : isRole "Page" (pq.1, .dict (dictSet "Kids"
        (.array ((docs.foldl collectStep initCollect).pages.map
          (fun e => Val.ref e.1)))
        (dictSet "Count" (.int (docs.foldl collectStep
          initCollect).pages.length) dq))) = false := by
      simp [isRole, hrootTy]
    have hcat0 : isRole "Page" (cq.1, .dict (dictRemove "Outlines"
        (dictSet "Pages" (.ref pq.1) dcq))) = false := by
      simp [isRole, hcatTy]
    rw [h0, hTPc, hroot0, hcat0]
    simp only [Bool.false_eq_true, if_false, Nat.add_zero, Nat.zero_add]
    have : (docs.foldl collectStep initCollect).pages = pagesFlat 1 docs :=
      collectedPages_eq_pagesFlat docs
    rw [this, pagesFlat_length]
  · -- canonical Pages-root carries Kids and Count
    refine ⟨dictSet "Kids"
      (.array ((docs.foldl collectStep initCollect).pages.map
        (fun e => Val.ref e.1)))
      (dictSet "Count" (.int (docs.foldl collectStep
        initCollect).pages.length) dq), ?_, ?_, ?_⟩
    · rw [hobjs, hpid, lookup_btreeInsert_ne _ _ _ _ (Ne.symm hcpne),
        lookup_btreeInsert_self]
    · exact dictGet_dictSet_self _ _ _
    · rw [dictGet_dictSet_ne _ _ _ _ (by decide), dictGet_dictSet_self]
      rfl
  · -- every collected page's Parent points at the canonical Pages-root
    intro e he
    obtain ⟨dd, hdd⟩ := obj_dict_of_typeName e.2 "Page"
      (hinv.pagesRole e he) (by simp)
    refine ⟨dd, hdd, ?_⟩
    have hec : e.1 ≠ cq.1 := by
      intro h
      exact hcidpages (h ▸ List.mem_map_of_mem Prod.fst he)
    have hep : e.1 ≠ pq.1 := by
      intro h
      exact hpidpages (h ▸ List.mem_map_of_mem Prod.fst he)
    rw [hobjs, hpid, lookup_btreeInsert_ne _ _ _ _ hec,
      lookup_btreeInsert_ne _ _ _ _ hep,
      foldl_btreeInsert_lookup_mem _ _ hTPnd (e.1, setParent pq.1 e.2)
        (List.mem_map_of_mem _ he)]
    rw [hdd]
    rfl

/-- Witness for C1: the concrete one-source merge of `docW`. -/
theorem C1_merged_page_structure_witness :
    collectedPages [docW] = pagesFlat 1 [docW] ∧
    mergedW.objects.countP (isRole "Page")
      = ([docW].map (fun d => d.objects.countP (isRole "Page"))).sum ∧
    (∀ e ∈ collectedPages [docW], ∃ dd, e.2 = .dict dd ∧
      mergedW.objects.lookup e.1
        = some (.dict (dictSet "Parent" (.ref mergedW.pageId) dd))) := by
  have h := C1_merged_page_structure envW.load [["root", "a.pdf"]] [docW]
    mergedW (by decide) rfl rfl
  exact ⟨h.2.1, h.1, h.2.2.2⟩

/-! ## C2: duplicate Catalog / Pages-root handling -/

/-- Counterexample to C2 as stated: merging `doc1W` and `doc2W` (each
contributing a Catalog and a Pages-root), the merged object table holds
the first source's Pages-root under id 2 and the second's under id 5, yet
the canonical Pages-root of the output is id 5 — the *last* encountered
instance, not the first — and its dictionary still carries `K1`, an entry
that existed only in the first (dropped-id) instance: the later instance
is neither dropped nor kept content-free. -/
theorem C2_counterexample :
    mergePdfFiles load2W [["a"], ["b"]] = .ok merged2W ∧
    ((([doc1W, doc2W].foldl collectStep initCollect).objects.filter
      (isRole "Pages")).map Prod.fst) = [2, 5] ∧
    merged2W.pageId = 5 ∧ (5 : Nat) ≠ 2 ∧
    merged2W.objects.lookup 5
      = some (.dict [("Type", .name "Pages"), ("K2", .int 2),
          ("Kids", .array [.ref 3, .ref 6]), ("Count", .int 2),
          ("K1", .int 1)]) ∧
    dictGet "K1" [("Type", .name "Pages"), ("K2", .int 2),
        ("Kids", .array [.ref 3, .ref 6]), ("Count", .int 2),
        ("K1", .int 1)]
      = some (.int 1) :=
  ⟨rfl, rfl, rfl, by decide, rfl, rfl⟩

/-- C2 as amended: the first encountered Catalog instance is retained
verbatim and later ones are dropped; the canonical Pages-root is the
*last* encountered Pages instance (its identifier wins), and it
accumulates the keys of every encountered Pages dictionary (earlier
instances' content is merged in, not dropped); exactly one Catalog and
exactly one Pages-root object survive into a successful merge's
output. -/
theorem C2_role_retention_amended :
    (∀ objs : List (Nat × Obj),
      (objs.foldl routeEntry initRoute).catalogObject
        = objs.find? (isRole "Catalog")) ∧
    (∀ objs : List (Nat × Obj),
      ((objs.foldl routeEntry initRoute).pagesObject).map Prod.fst
        = (objs.reverse.find? (isRole "Pages")).map Prod.fst) ∧
    (∀ objs : List (Nat × Obj), (∀ e ∈ objs, WFObj e.2) →
      ∀ e ∈ objs, isRole "Pages" e = true →
        ∀ q, (objs.foldl routeEntry initRoute).pagesObject = some q →
          ∀ de, e.2 = .dict de →
            ∃ dq, q.2 = .dict dq ∧ dictSupersetOf dq de) ∧
    (∀ (load : List String → Option PdfDoc) (files : List (List String))
      (docs : List PdfDoc) (out : MergedDoc),
      (∀ d ∈ docs, WFDoc d) → files.mapM load = some docs →
      mergePdfFiles load files = .ok out →
      out.objects.countP (isRole "Catalog") = 1 ∧
      out.objects.countP (isRole "Pages") = 1) := by
  refine ⟨?_, ?_, ?_, ?_⟩
  · intro objs
    rw [routeFold_catalog]
    simp [initRoute, Option.none_or]
  · intro objs
    rw [routeFold_pagesId]
    simp [initRoute, Option.or_none]
  · intro objs hwf e he hrole q hq de hde
    exact (routeFold_pages_accum objs initRoute hwf
      pagesCanonWF_init).2.2 e he hrole q hq de hde
  · intro load files docs out hwf hload hok
    have hinv : CollectInv (docs.foldl collectStep initCollect) :=
      collectInv_foldl docs initCollect collectInv_init hwf
    obtain ⟨pq, cq, dq, dcq, hpq, hcq, hdq, hdqnd, hdqty, hdcq, hdcqty,
      hepq, hcqfind, hpid, hcid, htr, hobjs⟩ :=
      mergePdfFiles_ok_anatomy load files docs out hwf hload hok
    have hecq : ∃ e ∈ (docs.foldl collectStep initCollect).objects,
        isRole "Catalog" e = true ∧ e.1 = cq.1 :=
      ⟨cq, List.mem_of_find?_eq_some hcqfind, List.find?_some hcqfind, rfl⟩
    obtain ⟨hrtmem, hpagesdisj, hpidpages, hpidrt, hcidpages, hcidrt,
      hcpne⟩ := merge_fresh_facts docs hinv pq.1 cq.1 hepq hecq
    have hTPkeys : (((docs.foldl collectStep initCollect).pages.map
        (fun e => (e.1, setParent pq.1 e.2))).map Prod.fst)
        = (docs.foldl collectStep initCollect).pages.map Prod.fst := by
      simp [List.map_map, Function.comp]
    have hTPfresh : ∀ j ∈ ((docs.foldl collectStep initCollect).pages.map
        (fun e => (e.1, setParent pq.1 e.2))).map Prod.fst,
        j ∉ ((docs.foldl collectStep initCollect).objects.foldl routeEntry
          initRoute).objects.map Prod.fst := by
      rw [hTPkeys]
      exact hpagesdisj
    have hTPnd : (((docs.foldl collectStep initCollect).pages.map
        (fun e => (e.1, setParent pq.1 e.2))).map Prod.fst).Nodup := by
      rw [hTPkeys]
      exact hinv.pagesSorted.imp (fun h => ne_of_lt h)
    have hpid2 : pq.1 ∉ ((docs.foldl collectStep initCollect).pages.map
        (fun e => (e.1, setParent pq.1 e.2))).map Prod.fst := by
      rw [hTPkeys]
      exact hpidpages
    have hcid2 : cq.1 ∉ ((docs.foldl collectStep initCollect).pages.map
        (fun e => (e.1, setParent pq.1 e.2))).map Prod.fst := by
      rw [hTPkeys]
      exact hcidpages
    have hrootTy : typeName (.dict (dictSet "Kids"
        (.array ((docs.foldl collectStep initCollect).pages.map
          (fun e => Val.ref e.1)))
        (dictSet "Count" (.int (docs.foldl collectStep
          initCollect).pages.length) dq))) = "Pages" := by
      simp only [typeName]
      rw [dictGet_dictSet_ne _ _ _ _ (by decide),
        dictGet_dictSet_ne _ _ _ _ (by decide), hdqty]
    have hcatTy : typeName (.dict (dictRemove "Outlines"
        (dictSet "Pages" (.ref pq.1) dcq))) = "Catalog" := by
      simp only [typeName]
      rw [dictGet_dictRemove_ne _ _ _ (by decide),
        dictGet_dictSet_ne _ _ _ _ (by decide), hdcqty]
    have hTPpage : ∀ a ∈ (docs.foldl collectStep initCollect).pages.map
        (fun e => (e.1, setParent pq.1 e.2)), typeName a.2 = "Page" := by
      intro a ha
      obtain ⟨e0, he0, hae⟩ := List.mem_map.mp ha
      rw [← hae]
      simp only [typeName_setParent]
      exact hinv.pagesRole e0 he0
    constructor
    · rw [hobjs, countP_assembled _ _ _ _ _ _ _ hTPfresh hTPnd hpidrt
        hpid2 hcidrt hcid2 hcpne]
      have h0 : ((docs.foldl collectStep initCollect).objects.foldl
          routeEntry initRoute).objects.countP (isRole "Catalog") = 0 := by
        rw [List.countP_eq_zero]
        intro e he
        have := (hrtmem e he).2.1
        simpa [isRole] using this
      have hTPc : ((docs.foldl collectStep initCollect).pages.map
          (fun e => (e.1, setParent pq.1 e.2))).countP
            (isRole "Catalog") = 0 := by
        rw [List.countP_eq_zero]
        intro a ha
        have := hTPpage a ha
        simp [isRole, this]
      have hroot0 : isRole "Catalog" (pq.1, .dict (dictSet "Kids"
          (.array ((docs.foldl collectStep initCollect).pages.map
            (fun e => Val.ref e.1)))
          (dictSet "Count" (.int (docs.foldl collectStep
            initCollect).pages.length) dq))) = false := by
        simp [isRole, hrootTy]
      have hcat1 : isRole "Catalog" (cq.1, .dict (dictRemove "Outlines"
          (dictSet "Pages" (.ref pq.1) dcq))) = true := by
        simp [isRole, hcatTy]
      rw [h0, hTPc, hroot0, hcat1]
      simp
    · rw [hobjs, countP_assembled _ _ _ _ _ _ _ hTPfresh hTPnd hpidrt
        hpid2 hcidrt hcid2 hcpne]
      have h0 : ((docs.foldl collectStep initCollect).objects.foldl
          routeEntry initRoute).objects.countP (isRole "Pages") = 0 := by
        rw [List.countP_eq_zero]
        intro e he
        have := (hrtmem e he).2.2
        simpa [isRole] using this
      have hTPc : ((docs.foldl collectStep initCollect).pages.map
          (fun e => (e.1, setParent pq.1 e.2))).countP
            (isRole "Pages") = 0 := by
        rw [List.countP_eq_zero]
        intro a ha
        have := hTPpage a ha
        simp [isRole, this]
      have hroot1 : isRole "Pages" (pq.1, .dict (dictSet "Kids"
          (.array ((docs.foldl collectStep initCollect).pages.map
            (fun e => Val.ref e.1)))
          (dictSet "Count" (.int (docs.foldl collectStep
            initCollect).pages.length) dq))) = true := by
        simp [isRole, hrootTy]
      have hcat0 : isRole "Pages" (cq.1, .dict (dictRemove "Outlines"
          (dictSet "Pages" (.ref pq.1) dcq))) = false := by
        simp [isRole, hcatTy]
      rw [h0, hTPc, hroot1, hcat0]
      simp

/-- Witness for the amended C2: the two-source concrete merge keeps the
first Catalog, takes the last Pages-root instance as canonical, and its
output holds exactly one Catalog and one Pages-root. -/
theorem C2_role_retention_amended_witness :
    (([doc1W, doc2W].foldl collectStep initCollect).objects.foldl
      routeEntry initRoute).catalogObject
      = ([doc1W, doc2W].foldl collectStep
          initCollect).objects.find? (isRole "Catalog") ∧
    merged2W.objects.countP (isRole "Catalog") = 1 ∧
    merged2W.objects.countP (isRole "Pages") = 1 := by
  refine ⟨C2_role_retention_amended.1 _, ?_, ?_⟩
  · exact (C2_role_retention_amended.2.2.2 load2W [["a"], ["b"]]
      [doc1W, doc2W] merged2W (by decide) rfl rfl).1
  · exact (C2_role_retention_amended.2.2.2 load2W [["a"], ["b"]]
      [doc1W, doc2W] merged2W (by decide) rfl rfl).2

end InvoiceMerge
